import Mathlib

/-!
Verification development for the moshi-connect VPN connection supervisor.

Python strings are modelled as `List Char` (`PyStr`).  Pure helper
functions mirror the corresponding Python builtins on the inputs the
program feeds them (`str.split` with a one-character separator, `int()`
on optionally signed decimal literals, decimal formatting of integers).
-/

namespace MoshiConnect

abbrev PyStr := List Char

/-- Decimal digit test, as used by the embedded model of Python `int()`. -/
def isDigitCh (c : Char) : Bool := 48 ≤ c.toNat && c.toNat ≤ 57

/-- Whitespace stripped by Python `int()` around a numeric literal. -/
def isSpaceCh (c : Char) : Bool :=
  c = ' ' || c = '\t' || c = '\n' || c = '\r'

/-- The decimal digit character for a value `0 ≤ n ≤ 9`. -/
def digitChar (n : Nat) : Char := Char.ofNat (48 + n)

/-- Fuel-driven decimal formatting helper (structural recursion so that
kernel evaluation works); `fuel` bounds the recursion depth. -/
def natReprAux : Nat → Nat → PyStr
  | 0, _ => []
  | fuel + 1, n =>
    if n < 10 then [digitChar n]
    else natReprAux fuel (n / 10) ++ [digitChar (n % 10)]

/-- Model of Python decimal formatting of a nonnegative integer
(`str(n)` / f-string interpolation). -/
def natRepr (n : Nat) : PyStr := natReprAux (n + 1) n

/-- Model of Python decimal formatting of an integer (`str(i)`). -/
def intRepr (i : Int) : PyStr :=
  if i < 0 then '-' :: natRepr i.natAbs else natRepr i.toNat

/-- Accumulating decimal parser over digit characters. -/
def parseDigitsAux (acc : Nat) : PyStr → Nat
  | [] => acc
  | c :: cs => parseDigitsAux (acc * 10 + (c.toNat - 48)) cs

/-- Value of a string of decimal digit characters. -/
def parseDigits (s : PyStr) : Nat := parseDigitsAux 0 s

/-- Strip leading characters satisfying `isSpaceCh`. -/
def stripLeft (s : PyStr) : PyStr := s.dropWhile isSpaceCh

/-- Model of Python `str.strip()` restricted to ASCII whitespace. -/
def pyStrip (s : PyStr) : PyStr := (stripLeft (stripLeft s).reverse).reverse

/-- Parse a nonempty all-digit string; `none` otherwise. -/
def parseUnsigned (ds : PyStr) : Option Nat :=
  if ds ≠ [] ∧ ds.all isDigitCh then some (parseDigits ds) else none

/-- Model of Python `int(s)` on optionally signed decimal literals with
surrounding whitespace.  (Underscore digit grouping, which the program
never feeds it, is not modelled.)  Returns `none` where `int()` raises
`ValueError`. -/
def pyInt (s : PyStr) : Option Int :=
  match pyStrip s with
  | [] => none
  | c :: rest =>
    if c = '-' then (parseUnsigned rest).map (fun n : Nat => -(n : Int))
    else if c = '+' then (parseUnsigned rest).map (fun n : Nat => (n : Int))
    else (parseUnsigned (c :: rest)).map (fun n : Nat => (n : Int))

/-- Split helper: `acc` is the reversed current field. -/
def splitOnCharAux (sep : Char) : PyStr → PyStr → List PyStr
  | [], acc => [acc.reverse]
  | c :: cs, acc =>
    if c = sep then acc.reverse :: splitOnCharAux sep cs []
    else splitOnCharAux sep cs (c :: acc)

/-- Model of Python `s.split(sep)` for a one-character separator. -/
def pySplit (s : PyStr) (sep : Char) : List PyStr := splitOnCharAux sep s []

/-- `startsWithSeq s t`: `t` is an initial segment of `s`. -/
def startsWithSeq : PyStr → PyStr → Bool
  | _, [] => true
  | [], _ :: _ => false
  | c :: cs, d :: ds => c = d && startsWithSeq cs ds

/-- `containsSeq s t`: `t` occurs contiguously inside `s`. -/
def containsSeq : PyStr → PyStr → Bool
  | [], t => t.isEmpty
  | c :: cs, t => startsWithSeq (c :: cs) t || containsSeq cs t

/-- Greedy span: longest all-`p` initial segment and the remainder. -/
def spanP (p : Char → Bool) : PyStr → PyStr × PyStr
  | [] => ([], [])
  | c :: cs =>
    if p c then
      let r := spanP p cs
      (c :: r.1, r.2)
    else ([], c :: cs)

/-! ## DestinationNetwork (src/config/vpn_profiles.py) -/

/-- `DestinationNetwork` from `config/vpn_profiles.py`: the constructor
stores both strings verbatim, with no validation. -/
structure DestinationNetwork where
  destination_ip : PyStr
  netmask : PyStr
deriving DecidableEq

/-- Fuel-driven popcount helper (structural recursion for kernel
evaluation). -/
def countOnesAux : Nat → Nat → Nat
  | 0, _ => 0
  | fuel + 1, n => if n = 0 then 0 else n % 2 + countOnesAux fuel (n / 2)

/-- Number of `1` bits in the binary representation of `n`; model of
Python `bin(n).count('1')` for `n ≥ 0`. -/
def countOnes (n : Nat) : Nat := countOnesAux (n + 1) n

/-- Model of Python `bin(v).count('1')` (for negative `v`, `bin` prints a
minus sign and the magnitude's bits). -/
def bitCount (v : Int) : Nat := countOnes v.natAbs

/-- `mask_bits` from `DestinationNetwork.from_cidr`:
`(0xffffffff >> (32 - prefix_len)) << (32 - prefix_len)`. -/
def maskBits (p : Nat) : Nat := (0xffffffff >>> (32 - p)) <<< (32 - p)

/-- The dotted-quad netmask string `from_cidr` builds from the prefix
length: `f"{(m>>24)&0xff}.{(m>>16)&0xff}.{(m>>8)&0xff}.{m&0xff}"`. -/
def maskString (p : Nat) : PyStr :=
  natRepr ((maskBits p >>> 24) &&& 0xff) ++ '.' ::
  (natRepr ((maskBits p >>> 16) &&& 0xff) ++ '.' ::
  (natRepr ((maskBits p >>> 8) &&& 0xff) ++ '.' ::
  natRepr (maskBits p &&& 0xff)))

/-- Whether one field of the dotted quad passes `0 <= int(part) <= 255`
(`none` from `pyInt` models `int()` raising, which `from_cidr` does not
catch). -/
def octetOk (part : PyStr) : Bool :=
  match pyInt part with
  | some v => decide (0 ≤ v ∧ v ≤ 255)
  | none => false

/-- `DestinationNetwork.from_cidr` from `config/vpn_profiles.py`.
`none` models every path on which the Python code raises `ValueError`
(bad unpack of `line.split('/')`, `int()` failure, prefix out of range,
wrong octet count, octet out of range). -/
def from_cidr (line : PyStr) : Option DestinationNetwork :=
  match pySplit line '/' with
  | [network, prefixPart] =>
    match pyInt prefixPart with
    | none => none
    | some p =>
      if 0 ≤ p ∧ p ≤ 32 then
        let parts := pySplit network '.'
        if parts.length = 4 then
          if parts.all octetOk then
            some ⟨network, maskString p.toNat⟩
          else none
        else none
      else none
  | _ => none

/-- `DestinationNetwork.to_cidr`:
`f"{ip}/{sum(bin(int(x)).count('1') for x in netmask.split('.'))}"`.
`none` models `int()` raising on a malformed stored netmask. -/
def to_cidr (d : DestinationNetwork) : Option PyStr :=
  let parts := pySplit d.netmask '.'
  if parts.all (fun part => (pyInt part).isSome) then
    some (d.destination_ip ++ '/' ::
      natRepr ((parts.map (fun part => bitCount ((pyInt part).getD 0))).sum))
  else none

/-! ## Lemmas about decimal formatting and parsing -/

theorem natReprAux_succ (fuel n : Nat) :
    natReprAux (fuel + 1) n = if n < 10 then [digitChar n]
      else natReprAux fuel (n / 10) ++ [digitChar (n % 10)] := rfl

theorem natReprAux_congr : ∀ f g n, n < f → n < g → natReprAux f n = natReprAux g n := by
  intro f
  induction f with
  | zero => intro g n h; omega
  | succ f ih =>
    intro g n hf hg
    cases g with
    | zero => omega
    | succ g =>
      by_cases h10 : n < 10
      · rw [natReprAux_succ, natReprAux_succ, if_pos h10, if_pos h10]
      · have hpos : 0 < n := by omega
        have hdiv : n / 10 < n := Nat.div_lt_self hpos (by omega)
        rw [natReprAux_succ, natReprAux_succ, if_neg h10, if_neg h10,
          ih g (n / 10) (by omega) (by omega)]

theorem natRepr_eq (n : Nat) :
    natRepr n = if n < 10 then [digitChar n]
      else natRepr (n / 10) ++ [digitChar (n % 10)] := by
  show natReprAux (n + 1) n = _
  rw [natReprAux_succ]
  by_cases h10 : n < 10
  · simp [h10]
  · have hpos : 0 < n := by omega
    simp only [if_neg h10]
    rw [natReprAux_congr n (n / 10 + 1) (n / 10)
      (Nat.div_lt_self hpos (by omega)) (Nat.lt_succ_self _)]
    rfl

theorem digitChar_toNat {d : Nat} (h : d ≤ 9) : (digitChar d).toNat = 48 + d := by
  interval_cases d <;> decide

theorem digitChar_isDigit {d : Nat} (h : d ≤ 9) : isDigitCh (digitChar d) = true := by
  interval_cases d <;> decide

theorem natRepr_all_digits (n : Nat) : ∀ c ∈ natRepr n, isDigitCh c = true := by
  induction n using Nat.strong_induction_on with
  | _ n ih =>
    rw [natRepr_eq]
    by_cases h10 : n < 10
    · simp only [h10, if_true, List.mem_singleton]
      rintro c rfl
      exact digitChar_isDigit (by omega)
    · have hpos : 0 < n := by omega
      simp only [h10, if_false, List.mem_append, List.mem_singleton]
      rintro c (hc | rfl)
      · exact ih (n / 10) (Nat.div_lt_self hpos (by omega)) c hc
      · exact digitChar_isDigit (by omega)

theorem natRepr_ne_nil (n : Nat) : natRepr n ≠ [] := by
  rw [natRepr_eq]
  by_cases h10 : n < 10 <;> simp [h10]

theorem isDigitCh_not_special {c : Char} (h : isDigitCh c = true) :
    c ≠ '.' ∧ c ≠ '/' ∧ c ≠ '-' ∧ c ≠ '+' ∧ isSpaceCh c = false := by
  refine ⟨fun he => ?_, fun he => ?_, fun he => ?_, fun he => ?_, ?_⟩
  · subst he; exact absurd h (by decide)
  · subst he; exact absurd h (by decide)
  · subst he; exact absurd h (by decide)
  · subst he; exact absurd h (by decide)
  · cases hsp : isSpaceCh c
    · rfl
    · exfalso
      have hsp' : c = ' ' ∨ c = '\t' ∨ c = '\n' ∨ c = '\r' := by
        have h1 := hsp
        simp only [isSpaceCh, Bool.or_eq_true, decide_eq_true_eq] at h1
        tauto
      rcases hsp' with he | he | he | he <;> (subst he; exact absurd h (by decide))

theorem parseDigitsAux_nil (acc : Nat) : parseDigitsAux acc [] = acc := rfl

theorem parseDigitsAux_cons (acc : Nat) (c : Char) (cs : PyStr) :
    parseDigitsAux acc (c :: cs) = parseDigitsAux (acc * 10 + (c.toNat - 48)) cs := rfl

theorem parseDigitsAux_append (acc : Nat) (xs ys : PyStr) :
    parseDigitsAux acc (xs ++ ys) = parseDigitsAux (parseDigitsAux acc xs) ys := by
  induction xs generalizing acc with
  | nil => rfl
  | cons c cs ih =>
    rw [List.cons_append, parseDigitsAux_cons, ih, parseDigitsAux_cons]

theorem parseDigitsAux_natRepr (n : Nat) :
    ∀ acc, parseDigitsAux acc (natRepr n) = acc * 10 ^ (natRepr n).length + n := by
  induction n using Nat.strong_induction_on with
  | _ n ih =>
    intro acc
    rw [natRepr_eq]
    by_cases h10 : n < 10
    · simp only [if_pos h10]
      rw [parseDigitsAux_cons, parseDigitsAux_nil, digitChar_toNat (by omega),
        List.length_singleton]
      omega
    · have hpos : 0 < n := by omega
      have hdiv : n / 10 < n := Nat.div_lt_self hpos (by omega)
      simp only [if_neg h10]
      rw [parseDigitsAux_append, parseDigitsAux_cons, parseDigitsAux_nil,
        List.length_append, List.length_singleton]
      rw [ih (n / 10) hdiv acc, digitChar_toNat (by omega)]
      have e1 : 48 + n % 10 - 48 = n % 10 := by omega
      rw [e1]
      have hmod : 10 * (n / 10) + n % 10 = n := Nat.div_add_mod n 10
      have hpow : 10 ^ ((natRepr (n / 10)).length + 1) =
          10 ^ (natRepr (n / 10)).length * 10 := by ring
      rw [hpow]
      have expand : (acc * 10 ^ (natRepr (n / 10)).length + n / 10) * 10 + n % 10 =
          acc * (10 ^ (natRepr (n / 10)).length * 10) + (10 * (n / 10) + n % 10) := by
        ring
      rw [expand, hmod]

theorem parseDigits_natRepr (n : Nat) : parseDigits (natRepr n) = n := by
  simpa [parseDigits] using parseDigitsAux_natRepr n 0

theorem pyStrip_of_nospace {l : PyStr} (h : ∀ c ∈ l, isSpaceCh c = false) :
    pyStrip l = l := by
  have h1 : stripLeft l = l := by
    cases l with
    | nil => rfl
    | cons c cs => simp [stripLeft, List.dropWhile, h c (by simp)]
  have h2 : stripLeft l.reverse = l.reverse := by
    cases hrev : l.reverse with
    | nil => rfl
    | cons c cs =>
      have hc : c ∈ l := by
        have : c ∈ l.reverse := by rw [hrev]; simp
        simpa using this
      simp [stripLeft, List.dropWhile, h c hc]
  simp [pyStrip, h1, h2]

theorem pyInt_cons (c : Char) (rest : PyStr) (h : pyStrip (c :: rest) = c :: rest) :
    pyInt (c :: rest) =
      if c = '-' then (parseUnsigned rest).map (fun n : Nat => -(n : Int))
      else if c = '+' then (parseUnsigned rest).map (fun n : Nat => (n : Int))
      else (parseUnsigned (c :: rest)).map (fun n : Nat => (n : Int)) := by
  unfold pyInt
  rw [h]

theorem pyInt_natRepr (n : Nat) : pyInt (natRepr n) = some (n : Int) := by
  have hdig := natRepr_all_digits n
  have hstrip : pyStrip (natRepr n) = natRepr n :=
    pyStrip_of_nospace (fun c hc => (isDigitCh_not_special (hdig c hc)).2.2.2.2)
  obtain ⟨c, rest, hne⟩ : ∃ c rest, natRepr n = c :: rest := by
    cases h : natRepr n with
    | nil => exact absurd h (natRepr_ne_nil n)
    | cons c rest => exact ⟨c, rest, rfl⟩
  have hc : isDigitCh c = true := hdig c (by rw [hne]; simp)
  have hspec := isDigitCh_not_special hc
  have hall : (natRepr n).all isDigitCh = true := by
    rw [List.all_eq_true]; exact hdig
  have hcond : natRepr n ≠ [] ∧ (natRepr n).all isDigitCh = true :=
    ⟨natRepr_ne_nil n, hall⟩
  have hpu : parseUnsigned (natRepr n) = some n := by
    unfold parseUnsigned
    rw [if_pos hcond, parseDigits_natRepr]
  have hstrip' : pyStrip (c :: rest) = c :: rest := by rw [← hne]; exact hstrip
  rw [hne, pyInt_cons c rest hstrip', if_neg hspec.2.2.1, if_neg hspec.2.2.2.1,
    ← hne, hpu]
  rfl

theorem pyInt_intRepr (i : Int) : pyInt (intRepr i) = some i := by
  by_cases hneg : i < 0
  · have hdig := natRepr_all_digits i.natAbs
    have hstrip : pyStrip ('-' :: natRepr i.natAbs) = '-' :: natRepr i.natAbs := by
      apply pyStrip_of_nospace
      intro c hc
      rcases List.mem_cons.mp hc with rfl | hc'
      · decide
      · exact (isDigitCh_not_special (hdig c hc')).2.2.2.2
    have hall : (natRepr i.natAbs).all isDigitCh = true := by
      rw [List.all_eq_true]; exact hdig
    have hcond : natRepr i.natAbs ≠ [] ∧ (natRepr i.natAbs).all isDigitCh = true :=
      ⟨natRepr_ne_nil _, hall⟩
    have hpu : parseUnsigned (natRepr i.natAbs) = some i.natAbs := by
      unfold parseUnsigned
      rw [if_pos hcond, parseDigits_natRepr]
    have h1 : intRepr i = '-' :: natRepr i.natAbs := by
      simp only [intRepr, if_pos hneg]
    rw [h1, pyInt_cons _ _ hstrip, if_pos rfl, hpu]
    simp only [Option.map_some']
    congr 1
    omega
  · have h1 : intRepr i = natRepr i.toNat := by
      simp only [intRepr, if_neg hneg]
    rw [h1, pyInt_natRepr]
    congr 1
    omega

/-! ## Lemmas about splitting -/

theorem splitOnCharAux_nil (sep : Char) (acc : PyStr) :
    splitOnCharAux sep [] acc = [acc.reverse] := rfl

theorem splitOnCharAux_cons (sep c : Char) (cs acc : PyStr) :
    splitOnCharAux sep (c :: cs) acc =
      if c = sep then acc.reverse :: splitOnCharAux sep cs []
      else splitOnCharAux sep cs (c :: acc) := rfl

theorem splitOnCharAux_no_sep {sep : Char} :
    ∀ (l acc : PyStr), sep ∉ l → splitOnCharAux sep l acc = [acc.reverse ++ l] := by
  intro l
  induction l with
  | nil => intro acc _; simp [splitOnCharAux_nil]
  | cons c cs ih =>
    intro acc h
    have hc : ¬(c = sep) := fun hcs => h (by simp [hcs])
    rw [splitOnCharAux_cons, if_neg hc, ih (c :: acc) (fun hm => h (by simp [hm]))]
    simp

theorem splitOnCharAux_sep_append {sep : Char} :
    ∀ (A B acc : PyStr), sep ∉ A →
      splitOnCharAux sep (A ++ sep :: B) acc =
        (acc.reverse ++ A) :: splitOnCharAux sep B [] := by
  intro A
  induction A with
  | nil =>
    intro B acc _
    rw [List.nil_append, splitOnCharAux_cons, if_pos rfl]
    simp
  | cons c cs ih =>
    intro B acc h
    have hc : ¬(c = sep) := fun hcs => h (by simp [hcs])
    rw [List.cons_append, splitOnCharAux_cons, if_neg hc,
      ih B (c :: acc) (fun hm => h (by simp [hm]))]
    simp

theorem pySplit_pair {sep : Char} {A B : PyStr} (hA : sep ∉ A) (hB : sep ∉ B) :
    pySplit (A ++ sep :: B) sep = [A, B] := by
  rw [pySplit, splitOnCharAux_sep_append A B [] hA]
  rw [show splitOnCharAux sep B [] = pySplit B sep from rfl]
  rw [pySplit, splitOnCharAux_no_sep B [] hB]
  simp

/-- Model of Python `'.'.join`, used to build dotted strings for the
round-trip statements. -/
def joinDots : List PyStr → PyStr
  | [] => []
  | [x] => x
  | x :: y :: rest => x ++ '.' :: joinDots (y :: rest)

theorem pySplit_joinDots :
    ∀ (As : List PyStr), As ≠ [] → (∀ A ∈ As, '.' ∉ A) →
      pySplit (joinDots As) '.' = As := by
  intro As
  induction As with
  | nil => intro h; exact absurd rfl h
  | cons x rest ih =>
    intro _ hA
    cases rest with
    | nil =>
      rw [joinDots, pySplit, splitOnCharAux_no_sep x [] (hA x (by simp))]
      simp
    | cons y rest' =>
      rw [joinDots, pySplit, splitOnCharAux_sep_append _ _ [] (hA x (by simp))]
      simp only [List.reverse_nil, List.nil_append]
      rw [show splitOnCharAux '.' (joinDots (y :: rest')) [] =
          pySplit (joinDots (y :: rest')) '.' from rfl]
      rw [ih (by simp) (fun A hmem => hA A (by simp [hmem]))]

theorem dot_not_mem_natRepr (n : Nat) : '.' ∉ natRepr n := by
  intro h
  exact absurd rfl (isDigitCh_not_special (natRepr_all_digits n '.' h)).1

theorem slash_not_mem_natRepr (n : Nat) : '/' ∉ natRepr n := by
  intro h
  exact absurd rfl (isDigitCh_not_special (natRepr_all_digits n '/' h)).2.1

/-! ## CIDR round-trip infrastructure -/

/-- The canonical dotted-quad decimal string for four octet values. -/
def ipQuad (a b c d : Nat) : PyStr :=
  joinDots [natRepr a, natRepr b, natRepr c, natRepr d]

theorem slash_not_mem_ipQuad (a b c d : Nat) : '/' ∉ ipQuad a b c d := by
  intro h
  simp only [ipQuad, joinDots, List.mem_append, List.mem_cons] at h
  rcases h with h | h | h | h | h | h | h <;>
    first
    | exact slash_not_mem_natRepr _ h
    | exact absurd h (by decide)

theorem pySplit_ipQuad (a b c d : Nat) :
    pySplit (ipQuad a b c d) '.' = [natRepr a, natRepr b, natRepr c, natRepr d] := by
  apply pySplit_joinDots
  · simp
  · intro A hA
    simp only [List.mem_cons, List.not_mem_nil, or_false] at hA
    rcases hA with rfl | rfl | rfl | rfl <;> exact dot_not_mem_natRepr _

theorem octetOk_natRepr {n : Nat} (h : n ≤ 255) : octetOk (natRepr n) = true := by
  unfold octetOk
  rw [pyInt_natRepr]
  simp only [decide_eq_true_eq]
  omega

theorem maskString_eq_joinDots (p : Nat) :
    maskString p = joinDots [natRepr ((maskBits p >>> 24) &&& 0xff),
      natRepr ((maskBits p >>> 16) &&& 0xff),
      natRepr ((maskBits p >>> 8) &&& 0xff),
      natRepr (maskBits p &&& 0xff)] := rfl

theorem pySplit_maskString (p : Nat) :
    pySplit (maskString p) '.' = [natRepr ((maskBits p >>> 24) &&& 0xff),
      natRepr ((maskBits p >>> 16) &&& 0xff),
      natRepr ((maskBits p >>> 8) &&& 0xff),
      natRepr (maskBits p &&& 0xff)] := by
  rw [maskString_eq_joinDots]
  apply pySplit_joinDots
  · simp
  · intro A hA
    simp only [List.mem_cons, List.not_mem_nil, or_false] at hA
    rcases hA with rfl | rfl | rfl | rfl <;> exact dot_not_mem_natRepr _

theorem maskBytes_sum_fin : ∀ p : Fin 33,
    countOnes ((maskBits p.val >>> 24) &&& 0xff) +
      (countOnes ((maskBits p.val >>> 16) &&& 0xff) +
        (countOnes ((maskBits p.val >>> 8) &&& 0xff) +
          countOnes (maskBits p.val &&& 0xff))) = p.val := by decide

theorem from_cidr_ipQuad (a b c d p : Nat) (ha : a ≤ 255) (hb : b ≤ 255)
    (hc : c ≤ 255) (hd : d ≤ 255) (hp : p ≤ 32) :
    from_cidr (ipQuad a b c d ++ '/' :: natRepr p) =
      some ⟨ipQuad a b c d, maskString p⟩ := by
  have hsplit1 : pySplit (ipQuad a b c d ++ '/' :: natRepr p) '/' =
      [ipQuad a b c d, natRepr p] :=
    pySplit_pair (slash_not_mem_ipQuad a b c d) (slash_not_mem_natRepr p)
  unfold from_cidr
  rw [hsplit1]
  dsimp only
  rw [pyInt_natRepr]
  dsimp only
  have hrange : (0 : Int) ≤ (p : Int) ∧ (p : Int) ≤ 32 := by omega
  rw [if_pos hrange, pySplit_ipQuad]
  have hlen : ([natRepr a, natRepr b, natRepr c, natRepr d].length = 4) := rfl
  rw [if_pos hlen]
  have hall : [natRepr a, natRepr b, natRepr c, natRepr d].all octetOk = true := by
    simp [octetOk_natRepr, ha, hb, hc, hd]
  rw [if_pos hall]
  have htonat : ((p : Int)).toNat = p := by omega
  rw [htonat]

theorem to_cidr_maskString (ip : PyStr) (p : Nat) (hp : p ≤ 32) :
    to_cidr ⟨ip, maskString p⟩ = some (ip ++ '/' :: natRepr p) := by
  unfold to_cidr
  simp only
  rw [pySplit_maskString]
  have hsome : [natRepr ((maskBits p >>> 24) &&& 0xff),
      natRepr ((maskBits p >>> 16) &&& 0xff),
      natRepr ((maskBits p >>> 8) &&& 0xff),
      natRepr (maskBits p &&& 0xff)].all (fun part => (pyInt part).isSome) = true := by
    simp [pyInt_natRepr]
  rw [if_pos hsome]
  have hbit : ∀ n : Nat, bitCount ((pyInt (natRepr n)).getD 0) = countOnes n := by
    intro n
    rw [pyInt_natRepr]
    simp [bitCount]
  have hsum : ([natRepr ((maskBits p >>> 24) &&& 0xff),
      natRepr ((maskBits p >>> 16) &&& 0xff),
      natRepr ((maskBits p >>> 8) &&& 0xff),
      natRepr (maskBits p &&& 0xff)].map
        (fun part => bitCount ((pyInt part).getD 0))).sum = p := by
    simp only [List.map_cons, List.map_nil, hbit, List.sum_cons, List.sum_nil]
    have := maskBytes_sum_fin ⟨p, by omega⟩
    simpa using this
  rw [hsum]

theorem mem_joinDots {c : Char} :
    ∀ {As : List PyStr}, c ∈ joinDots As → (∃ A ∈ As, c ∈ A) ∨ c = '.' := by
  intro As
  induction As with
  | nil => intro h; simp [joinDots] at h
  | cons x rest ih =>
    intro h
    cases rest with
    | nil =>
      rw [joinDots] at h
      exact Or.inl ⟨x, by simp, h⟩
    | cons y rest' =>
      rw [joinDots, List.mem_append, List.mem_cons] at h
      rcases h with h | h | h
      · exact Or.inl ⟨x, by simp, h⟩
      · exact Or.inr h
      · rcases ih h with ⟨A, hA, hcA⟩ | h'
        · exact Or.inl ⟨A, by simp [hA], hcA⟩
        · exact Or.inr h'

theorem slash_not_mem_joinDots_natReprs (l : List Nat) :
    '/' ∉ joinDots (l.map natRepr) := by
  intro h
  rcases mem_joinDots h with ⟨A, hA, hcA⟩ | h'
  · rcases List.mem_map.mp hA with ⟨n, _, rfl⟩
    exact slash_not_mem_natRepr n hcA
  · exact absurd h' (by decide)

theorem slash_not_mem_intRepr (q : Int) : '/' ∉ intRepr q := by
  intro h
  unfold intRepr at h
  by_cases hq : q < 0
  · rw [if_pos hq] at h
    rcases List.mem_cons.mp h with h' | h'
    · exact absurd h' (by decide)
    · exact slash_not_mem_natRepr _ h'
  · rw [if_neg hq] at h
    exact slash_not_mem_natRepr _ h

theorem octetOk_natRepr_false {n : Nat} (h : 255 < n) :
    octetOk (natRepr n) = false := by
  unfold octetOk
  rw [pyInt_natRepr]
  simp only [decide_eq_false_iff_not]
  omega

/-! ## Claim C6 -/

/-- C6: for every valid CIDR string (four octet values 0–255 and a prefix
0–32, written in canonical decimal), parsing with
`DestinationNetwork.from_cidr` and re-serializing with `to_cidr` yields
the original string. -/
theorem C6_cidr_roundtrip (a b c d p : Nat) (ha : a ≤ 255) (hb : b ≤ 255)
    (hc : c ≤ 255) (hd : d ≤ 255) (hp : p ≤ 32) :
    (from_cidr (ipQuad a b c d ++ '/' :: natRepr p)).bind to_cidr =
      some (ipQuad a b c d ++ '/' :: natRepr p) := by
  rw [from_cidr_ipQuad a b c d p ha hb hc hd hp]
  exact to_cidr_maskString (ipQuad a b c d) p hp

/-- Witness for C6 at the concrete CIDR string 10.0.0.0/8. -/
theorem C6_cidr_roundtrip_witness :
    (from_cidr (ipQuad 10 0 0 0 ++ '/' :: natRepr 8)).bind to_cidr =
      some (ipQuad 10 0 0 0 ++ '/' :: natRepr 8) :=
  C6_cidr_roundtrip 10 0 0 0 8 (by decide) (by decide) (by decide) (by decide)
    (by decide)

/-! ## Claim C7 -/

/-- C7: malformed CIDR inputs are rejected by
`DestinationNetwork.from_cidr` with a validation error (modelled as
`none`), never a wrong or truncated network: (1) any prefix outside 0–32,
(2) a dotted string with the wrong number of fields, (3) any octet
value above 255. -/
theorem C7_malformed_cidr_rejected :
    (∀ (network : PyStr) (q : Int), '/' ∉ network → (q < 0 ∨ 32 < q) →
        from_cidr (network ++ '/' :: intRepr q) = none) ∧
    (∀ (octets : List Nat) (p : Nat), p ≤ 32 → octets ≠ [] →
        octets.length ≠ 4 →
        from_cidr (joinDots (octets.map natRepr) ++ '/' :: natRepr p) = none) ∧
    (∀ (a b c d p : Nat), p ≤ 32 → (255 < a ∨ 255 < b ∨ 255 < c ∨ 255 < d) →
        from_cidr (ipQuad a b c d ++ '/' :: natRepr p) = none) := by
  refine ⟨?_, ?_, ?_⟩
  · intro network q hslash hq
    have hsplit : pySplit (network ++ '/' :: intRepr q) '/' =
        [network, intRepr q] :=
      pySplit_pair hslash (slash_not_mem_intRepr q)
    unfold from_cidr
    rw [hsplit]
    dsimp only
    rw [pyInt_intRepr]
    dsimp only
    rw [if_neg (by omega)]
  · intro octets p hp hne hlen
    have hsplit : pySplit (joinDots (octets.map natRepr) ++ '/' :: natRepr p) '/' =
        [joinDots (octets.map natRepr), natRepr p] :=
      pySplit_pair (slash_not_mem_joinDots_natReprs octets) (slash_not_mem_natRepr p)
    unfold from_cidr
    rw [hsplit]
    dsimp only
    rw [pyInt_natRepr]
    dsimp only
    rw [if_pos (by omega : (0 : Int) ≤ (p : Int) ∧ (p : Int) ≤ 32)]
    rw [pySplit_joinDots (octets.map natRepr) (by simpa using hne)
      (fun A hA => by
        rcases List.mem_map.mp hA with ⟨n, _, rfl⟩
        exact dot_not_mem_natRepr n)]
    rw [if_neg (by simpa using hlen)]
  · intro a b c d p hp hbig
    have hsplit : pySplit (ipQuad a b c d ++ '/' :: natRepr p) '/' =
        [ipQuad a b c d, natRepr p] :=
      pySplit_pair (slash_not_mem_ipQuad a b c d) (slash_not_mem_natRepr p)
    unfold from_cidr
    rw [hsplit]
    dsimp only
    rw [pyInt_natRepr]
    dsimp only
    rw [if_pos (by omega : (0 : Int) ≤ (p : Int) ∧ (p : Int) ≤ 32), pySplit_ipQuad]
    have hlen : ([natRepr a, natRepr b, natRepr c, natRepr d].length = 4) := rfl
    rw [if_pos hlen]
    have hallf : ¬([natRepr a, natRepr b, natRepr c, natRepr d].all octetOk = true) := by
      rcases hbig with h | h | h | h <;>
        simp [List.all_cons, octetOk_natRepr_false h]
    rw [if_neg hallf]

/-- Witness for C7 at prefix 33, a three-octet string, and octet 999. -/
theorem C7_malformed_cidr_rejected_witness :
    from_cidr (ipQuad 10 0 0 1 ++ '/' :: intRepr 33) = none ∧
    from_cidr (joinDots ([10, 0, 0].map natRepr) ++ '/' :: natRepr 8) = none ∧
    from_cidr (ipQuad 999 0 0 1 ++ '/' :: natRepr 8) = none :=
  ⟨C7_malformed_cidr_rejected.1 (ipQuad 10 0 0 1) 33 (by decide) (by decide),
   C7_malformed_cidr_rejected.2.1 [10, 0, 0] 8 (by decide) (by decide) (by decide),
   C7_malformed_cidr_rejected.2.2 999 0 0 1 8 (by decide) (by decide)⟩

/-! ## Connection supervisor (src/service/vpn_connect_manager_impl.py)

The lock-serialized critical sections of `VpnConnectManagerImpl` are
modelled as atomic operations on an explicit state record; each
operation returns the successor state together with the list of
callback invocations (`VpnStatusCallback` calls) it performs, in order.
`Step` is the induced transition relation of the supervisor's
single-tunnel lifecycle. -/

/-- `VpnStatus` from `ipc/vpn_connect_interface.py`. -/
inductive VpnStatus where
  | connecting
  | connected
  | disconnecting
  | disconnected
deriving DecidableEq

/-- The `.value` wire string of each `VpnStatus` member. -/
def VpnStatus.value : VpnStatus → String
  | .connecting => "connecting"
  | .connected => "connected"
  | .disconnecting => "disconnecting"
  | .disconnected => "disconnected"

/-- `LogStream` from `ipc/vpn_connect_interface.py`. -/
inductive LogStream where
  | stdout
  | stderr
deriving DecidableEq

/-- `VpnErrorCode` from `ipc/vpn_connect_interface.py`.  Note: the enum
has exactly these four members. -/
inductive VpnErrorCode where
  | openconnectNotFound
  | authFailed
  | networkError
  | unknownError
deriving DecidableEq

/-- The `.value` wire string of each `VpnErrorCode` member. -/
def VpnErrorCode.value : VpnErrorCode → String
  | .openconnectNotFound => "OPENCONNECT_NOT_FOUND"
  | .authFailed => "AUTH_FAILED"
  | .networkError => "NETWORK_ERROR"
  | .unknownError => "UNKNOWN_ERROR"

/-- `VPNProfile` from `config/vpn_profiles.py` (the fields the
supervisor uses). -/
structure VPNProfile where
  name : String
  url : String
  routes : List DestinationNetwork
deriving DecidableEq

/-- One callback invocation on the supervisor's `VpnStatusCallback`. -/
inductive Event where
  | statusMessage (status : VpnStatus) (message : String)
      (data : List (String × String))
  | commandOutput (line : String) (stream : LogStream) (processName : String)
  | errorEvent (errorMessage : String) (code : VpnErrorCode)
      (details : Option String)
deriving DecidableEq

/-- The mutable fields of `VpnConnectManagerImpl`.  `vpn_process` is
`none` when no process object is held, `some true` while the spawned
process is running, `some false` once it has exited (Python
`poll() is not None`). -/
structure MgrState where
  current_vpn_url : Option String
  current_profile : Option VPNProfile
  route_manager : Option (List DestinationNetwork)
  vpn_process : Option Bool
  subprocess_reader : Bool
  current_status : VpnStatus
deriving DecidableEq

/-- The state `VpnConnectManagerImpl.__init__` establishes. -/
def init_state : MgrState :=
  { current_vpn_url := none
    current_profile := none
    route_manager := none
    vpn_process := none
    subprocess_reader := false
    current_status := VpnStatus.disconnected }

/-- `_set_status`: store the new status and notify the callback with
exactly that status. -/
def set_status (s : MgrState) (st : VpnStatus) (message : String)
    (data : List (String × String)) : MgrState × List Event :=
  ({ s with current_status := st }, [Event.statusMessage st message data])

/-- `_cleanup_connection`. -/
def cleanup_connection (s : MgrState) : MgrState :=
  { s with
    subprocess_reader := false
    vpn_process := none
    current_vpn_url := none
    current_profile := none }

/-- `_handle_connection_error`: `on_error`, then
`_set_status(DISCONNECTED, ...)`, then `_cleanup_connection`. -/
def handle_connection_error (s : MgrState) (message : String)
    (code : VpnErrorCode) (details : Option String) : MgrState × List Event :=
  let r := set_status s VpnStatus.disconnected ("Connection failed: " ++ message)
    [("reason", message), ("was_error", "true")]
  (cleanup_connection r.1, Event.errorEvent message code details :: r.2)

/-- `connect(profile, cookie)`: the third component records whether the
background `_connect_worker` thread (which performs the process spawn)
was started. -/
def connect (s : MgrState) (profile : VPNProfile) (cookie : String) :
    MgrState × List Event × Bool :=
  if s.current_status = VpnStatus.connecting ∨
      s.current_status = VpnStatus.connected then
    (s, [Event.errorEvent "Connection already in progress or established"
          VpnErrorCode.unknownError
          (some ("Current status: " ++ s.current_status.value))], false)
  else
    let s1 := { s with
      current_profile := some profile
      current_vpn_url := some profile.url
      route_manager := some profile.routes }
    let r := set_status s1 VpnStatus.connecting
      ("Starting connection to " ++ profile.name)
      [("vpn_url", profile.url), ("profile_name", profile.name)]
    (r.1, r.2, true)

/-- `_connect_worker` succeeds in spawning the process and starts the
subprocess reader. -/
def connect_worker_spawned (s : MgrState) : MgrState :=
  { s with vpn_process := some true, subprocess_reader := true }

/-- `_connect_worker` when `find_openconnect()` returns nothing. -/
def connect_worker_not_found (s : MgrState) : MgrState × List Event :=
  handle_connection_error s "OpenConnect executable not found"
    VpnErrorCode.openconnectNotFound none

/-- `_connect_worker` when `subprocess.Popen` raises. -/
def connect_worker_spawn_failed (s : MgrState) (e : String) :
    MgrState × List Event :=
  handle_connection_error s ("Failed to start OpenConnect: " ++ e)
    VpnErrorCode.networkError (some e)

/-- `on_connection_established` (the attach-pattern consumer inside
`_setup_subprocess_monitoring`). -/
def on_connection_established (s : MgrState)
    (deviceName deviceType deviceIndex : String) : MgrState × List Event :=
  let profileName := match s.current_profile with
    | some p => p.name
    | none => "None"
  set_status s VpnStatus.connected ("Connected to " ++ profileName)
    [("device_name", deviceName), ("device_type", deviceType),
     ("device_index", deviceIndex), ("vpn_url", s.current_vpn_url.getD "")]

/-- The supervised process exits on its own (Python `poll()` turning
non-`None`); no callback fires until `_monitor_process` observes it. -/
def process_dies (s : MgrState) : MgrState :=
  { s with vpn_process := some false }

/-- `_monitor_process` observing process termination with `exit_code`. -/
def monitor_process_exit (s : MgrState) (exitCode : Int) : MgrState × List Event :=
  if s.current_status = VpnStatus.disconnecting then
    let r := set_status s VpnStatus.disconnected "VPN disconnected successfully"
      [("reason", "user_requested"), ("was_error", "false")]
    (cleanup_connection r.1, r.2)
  else
    let reason := "OpenConnect process terminated unexpectedly (exit code: " ++
      String.mk (intRepr exitCode) ++ ")"
    let r := set_status s VpnStatus.disconnected reason
      [("reason", reason), ("was_error", "true")]
    (cleanup_connection r.1, r.2)

/-- `disconnect()`. -/
def disconnect (s : MgrState) : MgrState × List Event :=
  if s.current_status = VpnStatus.disconnected then
    (s, [Event.statusMessage VpnStatus.disconnected "Already disconnected"
          [("reason", "already_disconnected"), ("was_error", "false")]])
  else if s.current_status = VpnStatus.disconnecting then
    (s, [Event.errorEvent "Disconnection already in progress"
          VpnErrorCode.unknownError none])
  else
    set_status s VpnStatus.disconnecting "Starting VPN disconnection"
      [("reason", "user_requested")]

/-- `_disconnect_worker` finding the process already gone
(`poll() is not None` or no process object). -/
def disconnect_worker_process_gone (s : MgrState) : MgrState × List Event :=
  let r := set_status s VpnStatus.disconnected "VPN disconnected successfully"
    [("reason", "user_requested"), ("was_error", "false")]
  (cleanup_connection r.1, r.2)

/-- `query_status()`: builds a status snapshot and notifies the
callback; the stored state is never written (only the local `status`
variable is downgraded). -/
def query_status (s : MgrState) : MgrState × List Event :=
  let status := s.current_status
  let r : VpnStatus × String × List (String × String) :=
    match s.current_profile with
    | some profile =>
      if status = VpnStatus.connected then
        if s.vpn_process = some true then
          (status, "Connected to " ++ profile.name,
            [("vpn_url", s.current_vpn_url.getD ""),
             ("profile_name", profile.name)])
        else
          (VpnStatus.disconnected, "Connection lost",
            [("reason", "process_terminated"), ("was_error", "true")])
      else if status = VpnStatus.connecting then
        (status, "Connecting to " ++ profile.name,
          [("vpn_url", s.current_vpn_url.getD ""),
           ("profile_name", profile.name)])
      else if status = VpnStatus.disconnecting then
        (status, "Disconnecting VPN", [("reason", "user_requested")])
      else
        (status, "VPN is disconnected",
          [("reason", "not_connected"), ("was_error", "false")])
    | none =>
      if status = VpnStatus.disconnecting then
        (status, "Disconnecting VPN", [("reason", "user_requested")])
      else
        (status, "VPN is disconnected",
          [("reason", "not_connected"), ("was_error", "false")])
  (s, [Event.statusMessage r.1 r.2.1 r.2.2])

/-- One lock-serialized step of the supervisor, labelled with the
callback invocations it performs. -/
inductive Step : MgrState → List Event → MgrState → Prop where
  | connectCmd (s : MgrState) (profile : VPNProfile) (cookie : String) :
      Step s (connect s profile cookie).2.1 (connect s profile cookie).1
  | workerSpawned (s : MgrState) (h : s.current_status = VpnStatus.connecting) :
      Step s [] (connect_worker_spawned s)
  | workerNotFound (s : MgrState) (h : s.current_status = VpnStatus.connecting) :
      Step s (connect_worker_not_found s).2 (connect_worker_not_found s).1
  | workerSpawnFailed (s : MgrState) (e : String)
      (h : s.current_status = VpnStatus.connecting) :
      Step s (connect_worker_spawn_failed s e).2 (connect_worker_spawn_failed s e).1
  | attachLine (s : MgrState) (dn dt di : String) (h : s.vpn_process.isSome) :
      Step s (on_connection_established s dn dt di).2
        (on_connection_established s dn dt di).1
  | processDies (s : MgrState) (h : s.vpn_process = some true) :
      Step s [] (process_dies s)
  | processExit (s : MgrState) (code : Int) (h : s.vpn_process.isSome) :
      Step s (monitor_process_exit s code).2 (monitor_process_exit s code).1
  | unexpectedError (s : MgrState) (msg : String) (det : Option String) :
      Step s (handle_connection_error s msg VpnErrorCode.unknownError det).2
        (handle_connection_error s msg VpnErrorCode.unknownError det).1
  | disconnectCmd (s : MgrState) :
      Step s (disconnect s).2 (disconnect s).1
  | disconnectWorkerGone (s : MgrState)
      (h1 : s.current_status = VpnStatus.disconnecting)
      (h2 : s.vpn_process ≠ some true) :
      Step s (disconnect_worker_process_gone s).2
        (disconnect_worker_process_gone s).1
  | queryCmd (s : MgrState) :
      Step s (query_status s).2 (query_status s).1

/-- Unlabelled step relation. -/
def StepR (s s' : MgrState) : Prop := ∃ evs, Step s evs s'

/-- States the supervisor can reach from its initial state. -/
def Reachable (s : MgrState) : Prop := Relation.ReflTransGen StepR init_state s

/-- Structural invariant: while the supervisor is CONNECTING/CONNECTED,
and while a process object is held, a profile is stored. -/
def Inv (s : MgrState) : Prop :=
  ((s.current_status = VpnStatus.connecting ∨
      s.current_status = VpnStatus.connected) → s.current_profile.isSome) ∧
  (s.vpn_process.isSome → s.current_profile.isSome)

theorem step_preserves_inv {s : MgrState} {evs : List Event} {s' : MgrState}
    (hstep : Step s evs s') (hinv : Inv s) : Inv s' := by
  obtain ⟨hI, hJ⟩ := hinv
  cases hstep with
  | connectCmd profile cookie =>
    unfold connect
    by_cases hg : s.current_status = VpnStatus.connecting ∨
        s.current_status = VpnStatus.connected
    · rw [if_pos hg]
      exact ⟨hI, hJ⟩
    · rw [if_neg hg]
      exact ⟨fun _ => rfl, fun _ => rfl⟩
  | workerSpawned h =>
    have hp : s.current_profile.isSome := hI (Or.inl h)
    exact ⟨fun _ => hp, fun _ => hp⟩
  | workerNotFound h =>
    exact ⟨fun hcon => by simp [connect_worker_not_found,
      handle_connection_error, set_status, cleanup_connection] at hcon, fun hcon => by
      simp [connect_worker_not_found, handle_connection_error, set_status,
        cleanup_connection] at hcon⟩
  | workerSpawnFailed e h =>
    exact ⟨fun hcon => by simp [connect_worker_spawn_failed,
      handle_connection_error, set_status, cleanup_connection] at hcon, fun hcon => by
      simp [connect_worker_spawn_failed, handle_connection_error, set_status,
        cleanup_connection] at hcon⟩
  | attachLine dn dt di h =>
    have hp : s.current_profile.isSome := hJ h
    exact ⟨fun _ => hp, fun _ => hp⟩
  | processDies h =>
    have hp : s.current_profile.isSome := hJ (by rw [h]; rfl)
    exact ⟨fun hst => hI hst, fun _ => hp⟩
  | processExit code h =>
    unfold monitor_process_exit
    by_cases hd : s.current_status = VpnStatus.disconnecting
    · rw [if_pos hd]
      exact ⟨fun hcon => by simp [set_status, cleanup_connection] at hcon,
        fun hcon => by simp [set_status, cleanup_connection] at hcon⟩
    · rw [if_neg hd]
      exact ⟨fun hcon => by simp [set_status, cleanup_connection] at hcon,
        fun hcon => by simp [set_status, cleanup_connection] at hcon⟩
  | unexpectedError msg det =>
    exact ⟨fun hcon => by simp [handle_connection_error, set_status,
      cleanup_connection] at hcon, fun hcon => by
      simp [handle_connection_error, set_status, cleanup_connection] at hcon⟩
  | disconnectCmd =>
    unfold disconnect
    by_cases h1 : s.current_status = VpnStatus.disconnected
    · rw [if_pos h1]
      exact ⟨hI, hJ⟩
    · rw [if_neg h1]
      by_cases h2 : s.current_status = VpnStatus.disconnecting
      · rw [if_pos h2]
        exact ⟨hI, hJ⟩
      · rw [if_neg h2]
        refine ⟨fun hcon => ?_, fun hp => hJ hp⟩
        simp [set_status] at hcon
  | disconnectWorkerGone h1 h2 =>
    exact ⟨fun hcon => by simp [disconnect_worker_process_gone, set_status,
      cleanup_connection] at hcon, fun hcon => by
      simp [disconnect_worker_process_gone, set_status, cleanup_connection] at hcon⟩
  | queryCmd =>
    exact ⟨hI, hJ⟩

theorem reachable_inv {s : MgrState} (h : Reachable s) : Inv s := by
  induction h with
  | refl =>
    refine ⟨fun hcon => ?_, fun hcon => ?_⟩
    · rcases hcon with h' | h' <;> exact absurd h' (by simp [init_state])
    · exact absurd hcon (by simp [init_state])
  | tail _ hstep ih =>
    obtain ⟨evs, hstep'⟩ := hstep
    exact step_preserves_inv hstep' ih

/-- Status values carried by the `on_status_message` callbacks in an
event list, in order. -/
def statusEvents : List Event → List VpnStatus
  | [] => []
  | Event.statusMessage st _ _ :: rest => st :: statusEvents rest
  | Event.commandOutput _ _ _ :: rest => statusEvents rest
  | Event.errorEvent _ _ _ :: rest => statusEvents rest

/-- A profile used by the concrete witnesses. -/
def example_profile : VPNProfile :=
  { name := "Work VPN", url := "https://vpn.example.com", routes := [] }

/-- A supervisor state with an established connection, used by the
concrete witnesses. -/
def connected_example_state : MgrState :=
  { current_vpn_url := some "https://vpn.example.com"
    current_profile := some example_profile
    route_manager := some []
    vpn_process := some true
    subprocess_reader := true
    current_status := VpnStatus.connected }

/-! ## Claim C1 -/

/-- C1 (amended): while current_status is CONNECTING or CONNECTED,
`connect` starts no worker thread (hence spawns no second process),
leaves the state unchanged, and performs exactly one callback: an
`on_error` whose code is UNKNOWN_ERROR (the `VpnErrorCode` enum has no
AlreadyInProgress member) with message "Connection already in progress
or established". -/
theorem C1_connect_already_in_progress (s : MgrState) (profile : VPNProfile)
    (cookie : String)
    (h : s.current_status = VpnStatus.connecting ∨
      s.current_status = VpnStatus.connected) :
    connect s profile cookie =
      (s, [Event.errorEvent "Connection already in progress or established"
            VpnErrorCode.unknownError
            (some ("Current status: " ++ s.current_status.value))], false) := by
  unfold connect
  rw [if_pos h]

/-- Witness for C1 at a concrete CONNECTED state. -/
theorem C1_connect_already_in_progress_witness :
    connect connected_example_state example_profile "cookie123" =
      (connected_example_state,
       [Event.errorEvent "Connection already in progress or established"
          VpnErrorCode.unknownError
          (some ("Current status: " ++ connected_example_state.current_status.value))],
       false) :=
  C1_connect_already_in_progress connected_example_state example_profile
    "cookie123" (Or.inr rfl)

/-- C1 as stated is false on the code: the rejection callback carries
`VpnErrorCode.UNKNOWN_ERROR` (wire value "UNKNOWN_ERROR"), not an
AlreadyInProgress code — no such member exists in the enum. -/
theorem C1_counterexample :
    (connect connected_example_state example_profile "cookie123").2.1 =
      [Event.errorEvent "Connection already in progress or established"
        VpnErrorCode.unknownError (some "Current status: connected")] ∧
    VpnErrorCode.unknownError.value = "UNKNOWN_ERROR" ∧
    VpnErrorCode.unknownError.value ≠ "ALREADY_IN_PROGRESS" := by
  refine ⟨rfl, rfl, ?_⟩
  decide

/-! ## Claim C10 -/

/-- C10: whenever a supervisor step changes the stored current_status,
the step performs exactly one `on_status_message` callback, and it
carries exactly the new status (current_status is only written through
`_set_status`, which notifies in the same step). -/
theorem C10_status_mutation_notifies {s : MgrState} {evs : List Event}
    {s' : MgrState} (hstep : Step s evs s')
    (hchange : s'.current_status ≠ s.current_status) :
    statusEvents evs = [s'.current_status] := by
  cases hstep with
  | connectCmd profile cookie =>
    unfold connect at hchange ⊢
    by_cases hg : s.current_status = VpnStatus.connecting ∨
        s.current_status = VpnStatus.connected
    · rw [if_pos hg] at hchange
      exact absurd rfl hchange
    · rw [if_neg hg] at hchange ⊢
      simp [set_status, statusEvents]
  | workerSpawned h =>
    exact absurd rfl hchange
  | workerNotFound h =>
    simp [connect_worker_not_found, handle_connection_error, set_status,
      cleanup_connection, statusEvents]
  | workerSpawnFailed e h =>
    simp [connect_worker_spawn_failed, handle_connection_error, set_status,
      cleanup_connection, statusEvents]
  | attachLine dn dt di h =>
    simp [on_connection_established, set_status, statusEvents]
  | processDies h =>
    exact absurd rfl hchange
  | processExit code h =>
    by_cases hd : s.current_status = VpnStatus.disconnecting
    · simp [monitor_process_exit, hd, set_status, cleanup_connection, statusEvents]
    · simp [monitor_process_exit, hd, set_status, cleanup_connection, statusEvents]
  | unexpectedError msg det =>
    simp [handle_connection_error, set_status, cleanup_connection, statusEvents]
  | disconnectCmd =>
    unfold disconnect at hchange ⊢
    by_cases h1 : s.current_status = VpnStatus.disconnected
    · rw [if_pos h1] at hchange
      exact absurd rfl hchange
    · rw [if_neg h1] at hchange ⊢
      by_cases h2 : s.current_status = VpnStatus.disconnecting
      · rw [if_pos h2] at hchange
        exact absurd rfl hchange
      · rw [if_neg h2] at hchange ⊢
        simp [set_status, statusEvents]
  | disconnectWorkerGone h1 h2 =>
    simp [disconnect_worker_process_gone, set_status, cleanup_connection,
      statusEvents]
  | queryCmd =>
    exact absurd rfl hchange

/-- Witness for C10 at the initial state's Connect step. -/
theorem C10_status_mutation_notifies_witness :
    statusEvents (connect init_state example_profile "cookie123").2.1 =
      [(connect init_state example_profile "cookie123").1.current_status] :=
  C10_status_mutation_notifies
    (Step.connectCmd init_state example_profile "cookie123") (by decide)

/-! ## Claim C3 -/

/-- C3: in every reachable state with current_status CONNECTED whose
supervised process is no longer running, `query_status` reports
DISCONNECTED with data reason="process_terminated" (not a stale
CONNECTED); and `query_status` never changes the stored supervisor
state in any status. -/
theorem C3_query_status_degrade :
    (∀ s : MgrState, Reachable s → s.current_status = VpnStatus.connected →
        s.vpn_process ≠ some true →
        query_status s = (s, [Event.statusMessage VpnStatus.disconnected
          "Connection lost"
          [("reason", "process_terminated"), ("was_error", "true")]])) ∧
    (∀ s : MgrState, (query_status s).1 = s) := by
  constructor
  · intro s hreach hconn hdead
    obtain ⟨hI, _⟩ := reachable_inv hreach
    obtain ⟨p, hp⟩ : ∃ p, s.current_profile = some p := by
      have hps := hI (Or.inr hconn)
      cases hsp : s.current_profile with
      | none => rw [hsp] at hps; simp at hps
      | some p => exact ⟨p, rfl⟩
    simp [query_status, hp, hconn, hdead]
  · intro s
    rfl

/-- States of the concrete run used by the C3 witness: connect, spawn,
device attach, then the process dies silently. -/
def c3_state1 : MgrState := (connect init_state example_profile "ck").1

def c3_state2 : MgrState := connect_worker_spawned c3_state1

def c3_state3 : MgrState :=
  (on_connection_established c3_state2 "corp.vpn" "Wintun" "7").1

def c3_state4 : MgrState := process_dies c3_state3

/-- Witness for C3 on a concrete reachable CONNECTED state whose
process has exited. -/
theorem C3_query_status_degrade_witness :
    query_status c3_state4 = (c3_state4,
      [Event.statusMessage VpnStatus.disconnected "Connection lost"
        [("reason", "process_terminated"), ("was_error", "true")]]) := by
  have h1 : StepR init_state c3_state1 :=
    ⟨_, Step.connectCmd init_state example_profile "ck"⟩
  have h2 : StepR c3_state1 c3_state2 :=
    ⟨_, Step.workerSpawned c3_state1 (by decide)⟩
  have h3 : StepR c3_state2 c3_state3 :=
    ⟨_, Step.attachLine c3_state2 "corp.vpn" "Wintun" "7" (by decide)⟩
  have h4 : StepR c3_state3 c3_state4 :=
    ⟨_, Step.processDies c3_state3 (by decide)⟩
  have hreach : Reachable c3_state4 :=
    Relation.ReflTransGen.tail (Relation.ReflTransGen.tail
      (Relation.ReflTransGen.tail (Relation.ReflTransGen.tail
        Relation.ReflTransGen.refl h1) h2) h3) h4
  exact C3_query_status_degrade.1 c3_state4 hreach (by decide) (by decide)

/-! ## Claim C2 — client registry (src/service/service_impl.py) -/

/-- The parts of `ServiceImpl` state that `_remove_client` touches:
the registry of client connections (as identifiers) and the embedded
VPN connect manager state. -/
structure SvcState where
  clients : List Nat
  vpn : MgrState
deriving DecidableEq

/-- `_handle_last_client_disconnect`: initiates a VPN disconnect
(third component `true`) only when the manager status is neither
DISCONNECTED nor DISCONNECTING. -/
def handle_last_client_disconnect (st : SvcState) : SvcState × List Event × Bool :=
  if st.vpn.current_status ≠ VpnStatus.disconnected ∧
      st.vpn.current_status ≠ VpnStatus.disconnecting then
    let r := disconnect st.vpn
    ({ st with vpn := r.1 }, r.2, true)
  else (st, [], false)

/-- `_remove_client`: removes the client under the lock, then invokes
`_handle_last_client_disconnect` exactly when no clients remain.  The
third component counts handler invocations; the fourth records whether
a VPN disconnect was initiated. -/
def remove_client (st : SvcState) (c : Nat) : SvcState × List Event × Nat × Bool :=
  let clients' := if c ∈ st.clients then st.clients.erase c else st.clients
  let st1 := { st with clients := clients' }
  if clients'.length = 0 then
    let r := handle_last_client_disconnect st1
    (r.1, r.2.1, 1, r.2.2)
  else (st1, [], 0, false)

theorem handle_last_clients_unchanged (st : SvcState) :
    (handle_last_client_disconnect st).1.clients = st.clients := by
  unfold handle_last_client_disconnect
  by_cases h : st.vpn.current_status ≠ VpnStatus.disconnected ∧
      st.vpn.current_status ≠ VpnStatus.disconnecting
  · rw [if_pos h]
  · rw [if_neg h]

/-- C2: a removal taking the registry from non-empty to empty invokes
the last-client handling exactly once; a removal leaving at least one
client registered never invokes it (and initiates no disconnect); and
the handling initiates no disconnect when the supervisor status is
already DISCONNECTED or DISCONNECTING. -/
theorem C2_last_client_disconnect (st : SvcState) (c : Nat) :
    (c ∈ st.clients → st.clients.erase c = [] →
      (remove_client st c).2.2.1 = 1) ∧
    ((remove_client st c).1.clients ≠ [] →
      (remove_client st c).2.2.1 = 0 ∧ (remove_client st c).2.2.2 = false) ∧
    (st.vpn.current_status = VpnStatus.disconnected ∨
        st.vpn.current_status = VpnStatus.disconnecting →
      (remove_client st c).2.2.2 = false) := by
  refine ⟨?_, ?_, ?_⟩
  · intro hmem herase
    unfold remove_client
    rw [if_pos hmem, herase]
    simp
  · intro hne
    unfold remove_client at hne ⊢
    by_cases hz : (if c ∈ st.clients then st.clients.erase c else st.clients).length = 0
    · exfalso
      rw [if_pos hz] at hne
      apply hne
      rw [handle_last_clients_unchanged]
      simp only []
      exact List.length_eq_zero.mp hz
    · rw [if_neg hz]
      exact ⟨rfl, rfl⟩
  · intro hstat
    unfold remove_client
    by_cases hz : (if c ∈ st.clients then st.clients.erase c else st.clients).length = 0
    · rw [if_pos hz]
      unfold handle_last_client_disconnect
      rw [if_neg (by
        intro hcon
        rcases hstat with h | h
        · exact hcon.1 h
        · exact hcon.2 h)]
    · rw [if_neg hz]

/-- Witness for C2: removing the sole client invokes the handling once;
removing one of two does not; with the manager already DISCONNECTED no
disconnect is initiated. -/
theorem C2_last_client_disconnect_witness :
    (remove_client ⟨[7], connected_example_state⟩ 7).2.2.1 = 1 ∧
    ((remove_client ⟨[7, 8], connected_example_state⟩ 7).2.2.1 = 0 ∧
      (remove_client ⟨[7, 8], connected_example_state⟩ 7).2.2.2 = false) ∧
    (remove_client ⟨[7], init_state⟩ 7).2.2.2 = false :=
  ⟨(C2_last_client_disconnect ⟨[7], connected_example_state⟩ 7).1
      (by decide) (by decide),
   (C2_last_client_disconnect ⟨[7, 8], connected_example_state⟩ 7).2.1
      (by decide),
   (C2_last_client_disconnect ⟨[7], init_state⟩ 7).2.2 (Or.inl rfl)⟩

/-! ## Claim C4 — command-line logging (src/service/vpn_connect_manager_impl.py) -/

/-- Model of Python `' '.join`. -/
def join_space : List String → String
  | [] => ""
  | [x] => x
  | x :: y :: rest => x ++ " " ++ join_space (y :: rest)

/-- `_log_command`: the logged line for a command list, with
`masked_cmd = cmd[:-1] + ["***"]`. -/
def log_command (cmd : List String) : String :=
  "Executing command: " ++ join_space (cmd.dropLast ++ ["***"])

/-- The spawn command built by `_connect_worker`:
`[openconnect_path, profile.url, "--cookie", cookie]`. -/
def openconnect_command (path url cookie : String) : List String :=
  [path, url, "--cookie", cookie]

/-- C4 (amended): the logged command line replaces the cookie argument
entirely with "***" — it is independent of the cookie, so no suffix of
the cookie is disclosed (in particular not its last 4 characters). -/
theorem C4_log_masks_cookie (path url cookie other : String) :
    log_command (openconnect_command path url cookie) =
      "Executing command: " ++ path ++ " " ++ url ++ " " ++ "--cookie" ++ " " ++ "***" ∧
    log_command (openconnect_command path url cookie) =
      log_command (openconnect_command path url other) := by
  refine ⟨?_, rfl⟩
  simp only [log_command, openconnect_command, join_space, List.dropLast,
    List.append_eq, List.nil_append, String.append_assoc]

/-- C4 as stated is false on the code: for cookie "SECRETWXYZ" the
logged line is fully masked — its last 4 characters "WXYZ" do not
appear anywhere in the log line. -/
theorem C4_counterexample :
    log_command (openconnect_command "openconnect" "https://vpn.example.com"
        "SECRETWXYZ") =
      "Executing command: openconnect https://vpn.example.com --cookie ***" ∧
    containsSeq
      ("Executing command: openconnect https://vpn.example.com --cookie ***").toList
      ("WXYZ").toList = false := by
  refine ⟨?_, ?_⟩ <;> decide

/-! ## Claim C5 — attach-line classifier
(src/utils/subprocess_logger.py, src/service/vpn_connect_manager_impl.py)

The attach pattern is
`Using (?P<devicename>[\w-]+) device '(?P<name>[^']+)', index (?P<index>\d+)`
applied with `re.search`.  In this pattern every quantified class
excludes the character that must follow it (`[\w-]` excludes the space,
`[^']` excludes the quote, and `\d+` ends the pattern), so greedy
matching with backtracking coincides with maximal munch, and
`re.search` is leftmost-first; the model below implements exactly
that. -/

/-- `[\w-]` over ASCII: letters, digits, underscore, hyphen. -/
def isWordHyphenCh (c : Char) : Bool :=
  ('a' ≤ c && c ≤ 'z') || ('A' ≤ c && c ≤ 'Z') || isDigitCh c ||
    c = '_' || c = '-'

/-- The three named capture groups of the attach pattern. -/
structure AttachMatch where
  devicename : PyStr
  name : PyStr
  index : PyStr
deriving DecidableEq

/-- Consume an exact literal; `none` if `s` does not start with it. -/
def dropLit : PyStr → PyStr → Option PyStr
  | s, [] => some s
  | [], _ :: _ => none
  | c :: cs, d :: ds => if c = d then dropLit cs ds else none

/-- Attempt the attach pattern anchored at the start of `s`. -/
def matchAttachAt (s : PyStr) : Option AttachMatch :=
  match dropLit s ("Using ").toList with
  | none => none
  | some r1 =>
    let dev := spanP isWordHyphenCh r1
    if dev.1 = [] then none
    else
      match dropLit dev.2 (" device '").toList with
      | none => none
      | some r3 =>
        let nm := spanP (fun c => c != '\'') r3
        if nm.1 = [] then none
        else
          match dropLit nm.2 ("', index ").toList with
          | none => none
          | some r5 =>
            let idx := spanP isDigitCh r5
            if idx.1 = [] then none
            else some ⟨dev.1, nm.1, idx.1⟩

/-- `re.search` of the attach pattern: leftmost match position. -/
def search_attach : PyStr → Option AttachMatch
  | [] => none
  | c :: cs =>
    match matchAttachAt (c :: cs) with
    | some m => some m
    | none => search_attach cs

/-- `PatternMatcher.create_handler`: the handler calls the
matched-line consumer exactly on lines where the search succeeds;
returns the consumer invocations. -/
def pattern_matched_invocations (line : PyStr) : List (PyStr × AttachMatch) :=
  match search_attach line with
  | some m => [(line, m)]
  | none => []

/-- C5: the classifier extracts (Wintun, corp.vpn, 7) and
(TAP-Windows, Local Area Connection, 16) from the two attach lines,
and extracts nothing — invoking no matched-line consumer — from the
wrong-verb line. -/
theorem C5_attach_classifier :
    search_attach ("Using Wintun device 'corp.vpn', index 7").toList =
      some ⟨("Wintun").toList, ("corp.vpn").toList, ("7").toList⟩ ∧
    search_attach
        ("Using TAP-Windows device 'Local Area Connection', index 16").toList =
      some ⟨("TAP-Windows").toList, ("Local Area Connection").toList,
        ("16").toList⟩ ∧
    search_attach ("Connected to Wintun device 'x', index 1").toList = none ∧
    pattern_matched_invocations
      ("Connected to Wintun device 'x', index 1").toList = [] := by
  refine ⟨?_, ?_, ?_, ?_⟩ <;> decide

/-! ## Claim C9 — DestinationNetwork construction on the IPC path
(src/service/service_impl.py `_handle_connect_request`) -/

/-- One entry of the client-supplied `destination_networks` list: either
a mapping (dict) or some other value, which the handler skips via its
`isinstance(net_data, dict)` check. -/
inductive NetData where
  | dict (entries : List (PyStr × PyStr))
  | nonDict
deriving DecidableEq

/-- Python dict item lookup (`net_data[key]`); `none` models `KeyError`. -/
def lookup_field : List (PyStr × PyStr) → PyStr → Option PyStr
  | [], _ => none
  | (k, v) :: rest, key => if k = key then some v else lookup_field rest key

def destination_ip_key : PyStr := ("destination_ip").toList

def netmask_key : PyStr := ("netmask").toList

/-- `DestinationNetwork.__init__`: stores both client-supplied strings
verbatim, with no validation. -/
def DestinationNetwork.init (ip mask : PyStr) : DestinationNetwork := ⟨ip, mask⟩

/-- The network-building loop of `_handle_connect_request`: skips
non-dict entries, reads `destination_ip` and `netmask` verbatim, and
constructs `DestinationNetwork` directly; a missing key raises
(`none`), which the handler reports as an error. -/
def build_destination_networks : List NetData → Option (List DestinationNetwork)
  | [] => some []
  | NetData.nonDict :: rest => build_destination_networks rest
  | NetData.dict es :: rest =>
    match lookup_field es destination_ip_key, lookup_field es netmask_key with
    | some ip, some mask =>
      (build_destination_networks rest).map
        (fun networks => DestinationNetwork.init ip mask :: networks)
    | _, _ => none

/-- C9: the `DestinationNetwork` constructor accepts every pair of
strings verbatim (it cannot fail); the connect-request handler builds
networks directly from client-supplied strings with no CIDR
validation; and the prefix-derived-netmask invariant is enforced only
on the `from_cidr` path — every `from_cidr` success carries a netmask
derived from a prefix 0–32. -/
theorem C9_ipc_path_skips_validation :
    (∀ ip mask : PyStr, (DestinationNetwork.init ip mask).destination_ip = ip ∧
        (DestinationNetwork.init ip mask).netmask = mask) ∧
    (∀ pairs : List (PyStr × PyStr),
        build_destination_networks (pairs.map (fun pr =>
          NetData.dict [(destination_ip_key, pr.1), (netmask_key, pr.2)])) =
          some (pairs.map (fun pr => DestinationNetwork.init pr.1 pr.2))) ∧
    (∀ (line : PyStr) (dn : DestinationNetwork), from_cidr line = some dn →
        ∃ p, p ≤ 32 ∧ dn.netmask = maskString p) := by
  refine ⟨fun ip mask => ⟨rfl, rfl⟩, ?_, ?_⟩
  · intro pairs
    induction pairs with
    | nil => rfl
    | cons pr rest ih =>
      have h1 : lookup_field [(destination_ip_key, pr.1), (netmask_key, pr.2)]
          destination_ip_key = some pr.1 := by
        unfold lookup_field
        rw [if_pos rfl]
      have h2 : lookup_field [(destination_ip_key, pr.1), (netmask_key, pr.2)]
          netmask_key = some pr.2 := by
        unfold lookup_field
        unfold lookup_field
        rw [if_pos rfl, if_neg (show ¬(destination_ip_key = netmask_key) by decide)]
      simp only [List.map_cons, build_destination_networks]
      rw [h1, h2]
      dsimp only
      rw [ih]
      rfl
  · intro line dn h
    unfold from_cidr at h
    rcases hsplit : pySplit line '/' with _ | ⟨network, rest1⟩
    · rw [hsplit] at h
      exact absurd h (by simp)
    rcases rest1 with _ | ⟨prefixPart, rest2⟩
    · rw [hsplit] at h
      exact absurd h (by simp)
    rcases rest2 with _ | ⟨x, rest3⟩
    swap
    · rw [hsplit] at h
      exact absurd h (by simp)
    rw [hsplit] at h
    dsimp only at h
    cases hpi : pyInt prefixPart with
    | none =>
      rw [hpi] at h
      exact absurd h (by simp)
    | some p =>
      rw [hpi] at h
      dsimp only at h
      by_cases hr : 0 ≤ p ∧ p ≤ 32
      · rw [if_pos hr] at h
        by_cases hl : (pySplit network '.').length = 4
        · rw [if_pos hl] at h
          by_cases ha : (pySplit network '.').all octetOk = true
          · rw [if_pos ha] at h
            refine ⟨p.toNat, by omega, ?_⟩
            injection h with h2
            rw [← h2]
          · rw [if_neg ha] at h
            exact absurd h (by simp)
        · rw [if_neg hl] at h
          exact absurd h (by simp)
      · rw [if_neg hr] at h
        exact absurd h (by simp)

/-- Witness for C9: the handler accepts the malformed netmask "banana"
verbatim, while `from_cidr` of 10.0.0.0/8 yields a prefix-derived
netmask. -/
theorem C9_ipc_path_skips_validation_witness :
    ((DestinationNetwork.init (("1.2.3.4").toList) (("banana").toList)).destination_ip =
        ("1.2.3.4").toList ∧
      (DestinationNetwork.init (("1.2.3.4").toList) (("banana").toList)).netmask =
        ("banana").toList) ∧
    build_destination_networks
        [NetData.dict [(destination_ip_key, ("1.2.3.4").toList),
          (netmask_key, ("banana").toList)]] =
      some [DestinationNetwork.init (("1.2.3.4").toList) (("banana").toList)] ∧
    (∃ p, p ≤ 32 ∧
      (DestinationNetwork.mk (("10.0.0.0").toList) (("255.0.0.0").toList)).netmask =
        maskString p) :=
  ⟨C9_ipc_path_skips_validation.1 (("1.2.3.4").toList) (("banana").toList),
   C9_ipc_path_skips_validation.2.1 [((("1.2.3.4").toList), (("banana").toList))],
   C9_ipc_path_skips_validation.2.2 (("10.0.0.0/8").toList)
     (DestinationNetwork.mk (("10.0.0.0").toList) (("255.0.0.0").toList))
     (by decide)⟩

/-! ## Claim C8 — JSON message codec (src/ipc/json_message.py)

`encode_message` is `json.dumps(message, ensure_ascii=False)` with the
default separators `", "` and `": "`; `decode_message` is `json.loads`
followed by the mapping check.  Messages are the flat shape the spec
fixes: a string-keyed mapping whose values are primitives (string /
integer / boolean / null), sequences of primitives, or string-keyed
mappings of primitives.  The UTF-8 byte layer (`.encode('utf-8')` /
`.decode('utf-8')`, inverse on all unicode text) is modelled by the
character sequence itself.  The parser is `json.loads` restricted to
this grammar: on every byte string `encode_message` can produce the two
agree; inputs outside the grammar (floats, nested containers,
non-object top level) are rejected with `none`. -/

def lbrace : Char := Char.ofNat 123

def rbrace : Char := Char.ofNat 125

/-- A primitive JSON value. -/
inductive JPrim where
  | jstr (s : PyStr)
  | jint (n : Int)
  | jbool (b : Bool)
  | jnull
deriving DecidableEq

/-- A message value: a primitive, a sequence of primitives, or a
string-keyed mapping of primitives. -/
inductive JVal where
  | prim (p : JPrim)
  | arr (elems : List JPrim)
  | obj (fields : List (PyStr × JPrim))
deriving DecidableEq

/-- A message: a flat string-keyed mapping. -/
abbrev Message := List (PyStr × JVal)

/-- Lowercase hex digit, as `'\u%04x'` formatting uses. -/
def hexDigitCh (n : Nat) : Char :=
  if n < 10 then Char.ofNat (48 + n) else Char.ofNat (87 + n)

/-- Value of a hex digit character (either case). -/
def hexVal (c : Char) : Nat :=
  if 97 ≤ c.toNat then c.toNat - 87
  else if 65 ≤ c.toNat then c.toNat - 55
  else c.toNat - 48

def isHexDigit (c : Char) : Bool :=
  isDigitCh c || (97 ≤ c.toNat && c.toNat ≤ 102) || (65 ≤ c.toNat && c.toNat ≤ 70)

/-- The escape `json.dumps` (with `ensure_ascii=False`) applies to one
character: `"` and `\` are escaped, control characters use the five
short escapes or `\u00xx`, and everything else passes through. -/
def escapeChar (c : Char) : PyStr :=
  if c = '"' then ['\\', '"']
  else if c = '\\' then ['\\', '\\']
  else if c.toNat < 32 then
    if c = Char.ofNat 8 then ['\\', 'b']
    else if c = '\t' then ['\\', 't']
    else if c = '\n' then ['\\', 'n']
    else if c = Char.ofNat 12 then ['\\', 'f']
    else if c = '\r' then ['\\', 'r']
    else ['\\', 'u', '0', '0', hexDigitCh (c.toNat / 16), hexDigitCh (c.toNat % 16)]
  else [c]

def escapeStr : PyStr → PyStr
  | [] => []
  | c :: cs => escapeChar c ++ escapeStr cs

/-- A JSON string literal. -/
def encStr (s : PyStr) : PyStr := '"' :: (escapeStr s ++ ['"'])

def encPrim : JPrim → PyStr
  | JPrim.jstr s => encStr s
  | JPrim.jint n => intRepr n
  | JPrim.jbool true => ("true").toList
  | JPrim.jbool false => ("false").toList
  | JPrim.jnull => ("null").toList

/-- `", ".join`, the default `json.dumps` item separator. -/
def joinCommaSpace : List PyStr → PyStr
  | [] => []
  | [x] => x
  | x :: y :: rest => x ++ ',' :: ' ' :: joinCommaSpace (y :: rest)

def encItemPrim (kv : PyStr × JPrim) : PyStr :=
  encStr kv.1 ++ ':' :: ' ' :: encPrim kv.2

def encObj (fields : List (PyStr × JPrim)) : PyStr :=
  lbrace :: (joinCommaSpace (fields.map encItemPrim) ++ [rbrace])

def encArr (elems : List JPrim) : PyStr :=
  '[' :: (joinCommaSpace (elems.map encPrim) ++ [']'])

def encVal : JVal → PyStr
  | JVal.prim p => encPrim p
  | JVal.arr elems => encArr elems
  | JVal.obj fields => encObj fields

def encItemVal (kv : PyStr × JVal) : PyStr :=
  encStr kv.1 ++ ':' :: ' ' :: encVal kv.2

/-- `encode_message(m)`: the serialized characters of the message. -/
def encode_message (m : Message) : PyStr :=
  lbrace :: (joinCommaSpace (m.map encItemVal) ++ [rbrace])

def isWsCh (c : Char) : Bool := c = ' ' || c = '\t' || c = '\n' || c = '\r'

def skipWs (s : PyStr) : PyStr := s.dropWhile isWsCh

/-- JSON string-literal body parser, positioned after the opening
quote; returns the decoded characters and the remainder after the
closing quote.  (Surrogate-pair recombination for `\uD800`–`\uDFFF`,
which `encode_message` can never emit, is not modelled.) -/
def parseStrAux : PyStr → Option (PyStr × PyStr)
  | [] => none
  | c :: cs =>
    if c = '"' then some ([], cs)
    else if c = '\\' then
      match cs with
      | [] => none
      | e :: cs' =>
        if e = '"' then (parseStrAux cs').map (fun r => ('"' :: r.1, r.2))
        else if e = '\\' then (parseStrAux cs').map (fun r => ('\\' :: r.1, r.2))
        else if e = '/' then (parseStrAux cs').map (fun r => ('/' :: r.1, r.2))
        else if e = 'b' then (parseStrAux cs').map (fun r => (Char.ofNat 8 :: r.1, r.2))
        else if e = 'f' then (parseStrAux cs').map (fun r => (Char.ofNat 12 :: r.1, r.2))
        else if e = 'n' then (parseStrAux cs').map (fun r => ('\n' :: r.1, r.2))
        else if e = 'r' then (parseStrAux cs').map (fun r => ('\r' :: r.1, r.2))
        else if e = 't' then (parseStrAux cs').map (fun r => ('\t' :: r.1, r.2))
        else if e = 'u' then
          match cs' with
          | h1 :: h2 :: h3 :: h4 :: cs'' =>
            if isHexDigit h1 && isHexDigit h2 && isHexDigit h3 && isHexDigit h4 then
              (parseStrAux cs'').map (fun r =>
                (Char.ofNat (((hexVal h1 * 16 + hexVal h2) * 16 + hexVal h3) * 16 +
                  hexVal h4) :: r.1, r.2))
            else none
          | _ => none
        else none
    else if c.toNat < 32 then none
    else (parseStrAux cs).map (fun r => (c :: r.1, r.2))

/-- Primitive parser (string, integer, true/false/null). -/
def parsePrim : PyStr → Option (JPrim × PyStr)
  | [] => none
  | c :: cs =>
    if c = '"' then (parseStrAux cs).map (fun r => (JPrim.jstr r.1, r.2))
    else if c = 't' then
      match cs with
      | 'r' :: 'u' :: 'e' :: rest => some (JPrim.jbool true, rest)
      | _ => none
    else if c = 'f' then
      match cs with
      | 'a' :: 'l' :: 's' :: 'e' :: rest => some (JPrim.jbool false, rest)
      | _ => none
    else if c = 'n' then
      match cs with
      | 'u' :: 'l' :: 'l' :: rest => some (JPrim.jnull, rest)
      | _ => none
    else if c = '-' then
      match spanP isDigitCh cs with
      | ([], _) => none
      | (ds, rest) => some (JPrim.jint (-(parseDigits ds : Int)), rest)
    else if isDigitCh c then
      match spanP isDigitCh cs with
      | (ds, rest) => some (JPrim.jint ((parseDigits (c :: ds) : Int)), rest)
    else none

/-- Non-empty array body parser (after `[` and the empty check). -/
def parseArrItems : Nat → PyStr → Option (List JPrim × PyStr)
  | 0, _ => none
  | fuel + 1, s =>
    match parsePrim (skipWs s) with
    | none => none
    | some (p, rest) =>
      match skipWs rest with
      | c :: rest' =>
        if c = ']' then some ([p], rest')
        else if c = ',' then
          (parseArrItems fuel rest').map (fun r => (p :: r.1, r.2))
        else none
      | [] => none

/-- Non-empty object body parser with primitive values. -/
def parseObjItemsPrim : Nat → PyStr → Option (List (PyStr × JPrim) × PyStr)
  | 0, _ => none
  | fuel + 1, s =>
    match skipWs s with
    | c :: r1 =>
      if c = '"' then
        match parseStrAux r1 with
        | none => none
        | some (key, r2) =>
          match skipWs r2 with
          | d :: r3 =>
            if d = ':' then
              match parsePrim (skipWs r3) with
              | none => none
              | some (v, r4) =>
                match skipWs r4 with
                | e :: r5 =>
                  if e = rbrace then some ([(key, v)], r5)
                  else if e = ',' then
                    (parseObjItemsPrim fuel r5).map (fun r => ((key, v) :: r.1, r.2))
                  else none
                | [] => none
            else none
          | [] => none
      else none
    | [] => none

/-- Value parser: a primitive, an array of primitives, or an object of
primitives. -/
def parseVal (s : PyStr) : Option (JVal × PyStr) :=
  match s with
  | [] => none
  | c :: cs =>
    if c = '[' then
      match skipWs cs with
      | d :: rest =>
        if d = ']' then some (JVal.arr [], rest)
        else (parseArrItems ((d :: rest).length + 1) (d :: rest)).map
          (fun r => (JVal.arr r.1, r.2))
      | [] => none
    else if c = lbrace then
      match skipWs cs with
      | d :: rest =>
        if d = rbrace then some (JVal.obj [], rest)
        else (parseObjItemsPrim ((d :: rest).length + 1) (d :: rest)).map
          (fun r => (JVal.obj r.1, r.2))
      | [] => none
    else (parsePrim (c :: cs)).map (fun r => (JVal.prim r.1, r.2))

/-- Non-empty top-level object body parser. -/
def parseTopItems : Nat → PyStr → Option (Message × PyStr)
  | 0, _ => none
  | fuel + 1, s =>
    match skipWs s with
    | c :: r1 =>
      if c = '"' then
        match parseStrAux r1 with
        | none => none
        | some (key, r2) =>
          match skipWs r2 with
          | d :: r3 =>
            if d = ':' then
              match parseVal (skipWs r3) with
              | none => none
              | some (v, r4) =>
                match skipWs r4 with
                | e :: r5 =>
                  if e = rbrace then some ([(key, v)], r5)
                  else if e = ',' then
                    (parseTopItems fuel r5).map (fun r => ((key, v) :: r.1, r.2))
                  else none
                | [] => none
            else none
          | [] => none
      else none
    | [] => none

/-- `decode_message(data)`: parse the message object; reject trailing
content and any non-object top level (the `isinstance(message, dict)`
check). -/
def decode_message (s : PyStr) : Option Message :=
  match skipWs s with
  | c :: r1 =>
    if c = lbrace then
      match skipWs r1 with
      | d :: r2 =>
        if d = rbrace then
          if (skipWs r2).isEmpty then some [] else none
        else
          match parseTopItems (s.length + 1) (d :: r2) with
          | none => none
          | some (kvs, rest) => if (skipWs rest).isEmpty then some kvs else none
      | [] => none
    else none
  | [] => none

/-! ### Round-trip lemmas for the codec -/

theorem skipWs_cons_not_ws {c : Char} {cs : PyStr} (h : isWsCh c = false) :
    skipWs (c :: cs) = c :: cs := by
  simp [skipWs, List.dropWhile, h]

theorem skipWs_cons_space (s : PyStr) : skipWs (' ' :: s) = skipWs s := by
  simp [skipWs, List.dropWhile]
  rfl

theorem spanP_append {p : Char → Bool} :
    ∀ (ds rest : PyStr), (∀ c ∈ ds, p c = true) →
      (∀ c, rest.head? = some c → p c = false) →
      spanP p (ds ++ rest) = (ds, rest) := by
  intro ds
  induction ds with
  | nil =>
    intro rest _ hrest
    cases rest with
    | nil => rfl
    | cons c cs =>
      simp only [List.nil_append, spanP]
      rw [hrest c rfl]
      rfl
  | cons d ds' ih =>
    intro rest hall hrest
    simp only [List.cons_append, spanP]
    rw [hall d (by simp)]
    rw [if_pos rfl]
    simp only [List.append_eq]
    rw [ih rest (fun c hc => hall c (by simp [hc])) hrest]

theorem charOfNat_toNat {c : Char} (h : c.toNat < 55296) :
    Char.ofNat c.toNat = c := by
  apply Char.eq_of_val_eq
  have hv : c.toNat.isValidChar := Or.inl h
  show (Char.ofNat c.toNat).val = c.val
  unfold Char.ofNat
  rw [dif_pos hv]
  unfold Char.ofNatAux
  apply UInt32.eq_of_toBitVec_eq
  apply BitVec.eq_of_toNat_eq
  simp [BitVec.toNat_ofNatLt, Char.toNat, UInt32.toNat]

set_option maxRecDepth 4096 in
theorem hex_unescape {n : Nat} (h : n < 256) :
    ((hexVal '0' * 16 + hexVal '0') * 16 + hexVal (hexDigitCh (n / 16))) * 16 +
      hexVal (hexDigitCh (n % 16)) = n := by
  have key : ∀ m : Fin 256,
      ((hexVal '0' * 16 + hexVal '0') * 16 + hexVal (hexDigitCh (m.val / 16))) * 16 +
        hexVal (hexDigitCh (m.val % 16)) = m.val := by decide
  exact key ⟨n, h⟩

theorem isHexDigit_hexDigitCh {k : Nat} (h : k < 16) :
    isHexDigit (hexDigitCh k) = true := by
  have key : ∀ m : Fin 16, isHexDigit (hexDigitCh m.val) = true := by decide
  exact key ⟨k, h⟩

theorem ne_of_toNat_ne {c d : Char} (h : ¬(c.toNat = d.toNat)) : ¬(c = d) :=
  fun he => h (he ▸ rfl)

/-- Characters that can begin an encoded primitive. -/
def primStart (c : Char) : Prop :=
  c = '"' ∨ c = 't' ∨ c = 'f' ∨ c = 'n' ∨ c = '-' ∨ isDigitCh c = true

theorem primStart_facts {c : Char} (h : primStart c) :
    isWsCh c = false ∧ ¬(c = '[') ∧ ¬(c = lbrace) ∧ ¬(c = ']') ∧
      ¬(c = rbrace) ∧ ¬(c = ',') := by
  rcases h with rfl | rfl | rfl | rfl | rfl | hdig
  · exact ⟨by decide, by decide, by decide, by decide, by decide, by decide⟩
  · exact ⟨by decide, by decide, by decide, by decide, by decide, by decide⟩
  · exact ⟨by decide, by decide, by decide, by decide, by decide, by decide⟩
  · exact ⟨by decide, by decide, by decide, by decide, by decide, by decide⟩
  · exact ⟨by decide, by decide, by decide, by decide, by decide, by decide⟩
  · have hb : 48 ≤ c.toNat ∧ c.toNat ≤ 57 := by
      simpa [isDigitCh, Bool.and_eq_true, decide_eq_true_eq] using hdig
    refine ⟨?_, ?_, ?_, ?_, ?_, ?_⟩
    · cases hsp : isWsCh c
      · rfl
      · exfalso
        have hsp' : c = ' ' ∨ c = '\t' ∨ c = '\n' ∨ c = '\r' := by
          have h1 := hsp
          simp only [isWsCh, Bool.or_eq_true, decide_eq_true_eq] at h1
          tauto
        rcases hsp' with he | he | he | he <;> (subst he; exact absurd hdig (by decide))
    · exact ne_of_toNat_ne (by have h1 : ('[' : Char).toNat = 91 := rfl; omega)
    · exact ne_of_toNat_ne (by have h1 : lbrace.toNat = 123 := rfl; omega)
    · exact ne_of_toNat_ne (by have h1 : (']' : Char).toNat = 93 := rfl; omega)
    · exact ne_of_toNat_ne (by have h1 : rbrace.toNat = 125 := rfl; omega)
    · exact ne_of_toNat_ne (by have h1 : (',' : Char).toNat = 44 := rfl; omega)

theorem digit_not_json_special {c : Char} (h : isDigitCh c = true) :
    ¬(c = '"') ∧ ¬(c = 't') ∧ ¬(c = 'f') ∧ ¬(c = 'n') ∧ ¬(c = '-') ∧
      ¬(c = '\\') ∧ ¬(c.toNat < 32) := by
  have hb : 48 ≤ c.toNat ∧ c.toNat ≤ 57 := by
    simpa [isDigitCh, Bool.and_eq_true, decide_eq_true_eq] using h
  refine ⟨?_, ?_, ?_, ?_, ?_, ?_, by omega⟩
  · exact ne_of_toNat_ne (by have h1 : ('"' : Char).toNat = 34 := rfl; omega)
  · exact ne_of_toNat_ne (by have h1 : ('t' : Char).toNat = 116 := rfl; omega)
  · exact ne_of_toNat_ne (by have h1 : ('f' : Char).toNat = 102 := rfl; omega)
  · exact ne_of_toNat_ne (by have h1 : ('n' : Char).toNat = 110 := rfl; omega)
  · exact ne_of_toNat_ne (by have h1 : ('-' : Char).toNat = 45 := rfl; omega)
  · exact ne_of_toNat_ne (by have h1 : ('\\' : Char).toNat = 92 := rfl; omega)

theorem parseStrAux_done (rest : PyStr) :
    parseStrAux ('"' :: rest) = some ([], rest) := by
  rw [parseStrAux.eq_def]
  simp

theorem parseStrAux_escq (X : PyStr) :
    parseStrAux ('\\' :: '"' :: X) =
      (parseStrAux X).map (fun r => ('"' :: r.1, r.2)) := by
  rw [parseStrAux.eq_def]
  simp

theorem parseStrAux_escbs (X : PyStr) :
    parseStrAux ('\\' :: '\\' :: X) =
      (parseStrAux X).map (fun r => ('\\' :: r.1, r.2)) := by
  rw [parseStrAux.eq_def]
  simp

theorem parseStrAux_esc8 (X : PyStr) :
    parseStrAux ('\\' :: 'b' :: X) =
      (parseStrAux X).map (fun r => (Char.ofNat 8 :: r.1, r.2)) := by
  rw [parseStrAux.eq_def]
  simp

theorem parseStrAux_esct (X : PyStr) :
    parseStrAux ('\\' :: 't' :: X) =
      (parseStrAux X).map (fun r => ('\t' :: r.1, r.2)) := by
  rw [parseStrAux.eq_def]
  simp

theorem parseStrAux_escn (X : PyStr) :
    parseStrAux ('\\' :: 'n' :: X) =
      (parseStrAux X).map (fun r => ('\n' :: r.1, r.2)) := by
  rw [parseStrAux.eq_def]
  simp

theorem parseStrAux_escf (X : PyStr) :
    parseStrAux ('\\' :: 'f' :: X) =
      (parseStrAux X).map (fun r => (Char.ofNat 12 :: r.1, r.2)) := by
  rw [parseStrAux.eq_def]
  simp

theorem parseStrAux_escr (X : PyStr) :
    parseStrAux ('\\' :: 'r' :: X) =
      (parseStrAux X).map (fun r => ('\r' :: r.1, r.2)) := by
  rw [parseStrAux.eq_def]
  simp

theorem parseStrAux_escu (h3 h4 : Char) (X : PyStr) (hc3 : isHexDigit h3 = true)
    (hc4 : isHexDigit h4 = true) :
    parseStrAux ('\\' :: 'u' :: '0' :: '0' :: h3 :: h4 :: X) =
      (parseStrAux X).map (fun r =>
        (Char.ofNat (((hexVal '0' * 16 + hexVal '0') * 16 + hexVal h3) * 16 +
          hexVal h4) :: r.1, r.2)) := by
  rw [parseStrAux.eq_def]
  simp [hc3, hc4, show isHexDigit '0' = true from by decide]

theorem parseStrAux_plain (c : Char) (X : PyStr) (hq : ¬(c = '"'))
    (hb : ¬(c = '\\')) (hlt : ¬(c.toNat < 32)) :
    parseStrAux (c :: X) = (parseStrAux X).map (fun r => (c :: r.1, r.2)) := by
  rw [parseStrAux.eq_def]
  simp only []
  rw [if_neg hq, if_neg hb, if_neg hlt]

theorem parseStrAux_escape :
    ∀ (s rest : PyStr), parseStrAux (escapeStr s ++ '"' :: rest) = some (s, rest) := by
  intro s
  induction s with
  | nil =>
    intro rest
    rw [show escapeStr [] ++ '"' :: rest = '"' :: rest from rfl, parseStrAux_done]
  | cons c cs ih =>
    intro rest
    rw [show escapeStr (c :: cs) = escapeChar c ++ escapeStr cs from rfl,
      List.append_assoc]
    by_cases hq : c = '"'
    · subst hq
      rw [show escapeChar '"' = ['\\', '"'] from rfl]
      simp only [List.cons_append, List.nil_append]
      rw [parseStrAux_escq, ih rest]
      rfl
    · by_cases hb : c = '\\'
      · subst hb
        rw [show escapeChar '\\' = ['\\', '\\'] from rfl]
        simp only [List.cons_append, List.nil_append]
        rw [parseStrAux_escbs, ih rest]
        rfl
      · by_cases hlt : c.toNat < 32
        · by_cases h8 : c = Char.ofNat 8
          · subst h8
            rw [show escapeChar (Char.ofNat 8) = ['\\', 'b'] from rfl]
            simp only [List.cons_append, List.nil_append]
            rw [parseStrAux_esc8, ih rest]
            rfl
          · by_cases h9 : c = '\t'
            · subst h9
              rw [show escapeChar '\t' = ['\\', 't'] from rfl]
              simp only [List.cons_append, List.nil_append]
              rw [parseStrAux_esct, ih rest]
              rfl
            · by_cases h10 : c = '\n'
              · subst h10
                rw [show escapeChar '\n' = ['\\', 'n'] from rfl]
                simp only [List.cons_append, List.nil_append]
                rw [parseStrAux_escn, ih rest]
                rfl
              · by_cases h12 : c = Char.ofNat 12
                · subst h12
                  rw [show escapeChar (Char.ofNat 12) = ['\\', 'f'] from rfl]
                  simp only [List.cons_append, List.nil_append]
                  rw [parseStrAux_escf, ih rest]
                  rfl
                · by_cases h13 : c = '\r'
                  · subst h13
                    rw [show escapeChar '\r' = ['\\', 'r'] from rfl]
                    simp only [List.cons_append, List.nil_append]
                    rw [parseStrAux_escr, ih rest]
                    rfl
                  · have hesc : escapeChar c = ['\\', 'u', '0', '0',
                        hexDigitCh (c.toNat / 16), hexDigitCh (c.toNat % 16)] := by
                      unfold escapeChar
                      rw [if_neg hq, if_neg hb, if_pos hlt, if_neg h8, if_neg h9,
                        if_neg h10, if_neg h12, if_neg h13]
                    rw [hesc]
                    simp only [List.cons_append, List.nil_append]
                    rw [parseStrAux_escu _ _ _ (isHexDigit_hexDigitCh (by omega))
                      (isHexDigit_hexDigitCh (by omega)), ih rest,
                      hex_unescape (by omega : c.toNat < 256),
                      charOfNat_toNat (by omega)]
                    rfl
        · have hesc : escapeChar c = [c] := by
            unfold escapeChar
            rw [if_neg hq, if_neg hb, if_neg hlt]
          rw [hesc, List.singleton_append, parseStrAux_plain c _ hq hb hlt, ih rest]
          rfl

theorem natRepr_head_digit (n : Nat) :
    ∃ c ds, natRepr n = c :: ds ∧ isDigitCh c = true := by
  cases hn : natRepr n with
  | nil => exact absurd hn (natRepr_ne_nil n)
  | cons c ds =>
    exact ⟨c, ds, rfl, natRepr_all_digits n c (by rw [hn]; simp)⟩

theorem parsePrim_enc (p : JPrim) (rest : PyStr)
    (hd : ∀ c, rest.head? = some c → isDigitCh c = false) :
    parsePrim (encPrim p ++ rest) = some (p, rest) := by
  cases p with
  | jstr s =>
    rw [show encPrim (JPrim.jstr s) ++ rest =
      '"' :: (escapeStr s ++ ('"' :: rest)) from by
        simp [encPrim, encStr, List.append_assoc]]
    rw [parsePrim.eq_def]
    simp only []
    rw [if_pos trivial, parseStrAux_escape]
    rfl
  | jint n =>
    by_cases hneg : n < 0
    · have h1 : encPrim (JPrim.jint n) = '-' :: natRepr n.natAbs := by
        simp [encPrim, intRepr, if_pos hneg]
      obtain ⟨c, ds, hnd, hcdig⟩ := natRepr_head_digit n.natAbs
      have hall : ∀ x ∈ ds, isDigitCh x = true := fun x hx =>
        natRepr_all_digits n.natAbs x (by rw [hnd]; exact List.mem_cons_of_mem _ hx)
      rw [h1, List.cons_append, parsePrim.eq_def]
      simp only []
      rw [if_neg (by decide : ¬(('-' : Char) = '"')),
        if_neg (by decide : ¬(('-' : Char) = 't')),
        if_neg (by decide : ¬(('-' : Char) = 'f')),
        if_neg (by decide : ¬(('-' : Char) = 'n')),
        if_pos trivial]
      rw [show natRepr n.natAbs ++ rest = c :: (ds ++ rest) from by
        rw [hnd]; rfl]
      rw [show spanP isDigitCh (c :: (ds ++ rest)) = (c :: ds, rest) from by
        rw [show c :: (ds ++ rest) = (c :: ds) ++ rest from rfl]
        exact spanP_append (c :: ds) rest
          (fun x hx => by
            rcases List.mem_cons.mp hx with rfl | hx'
            · exact hcdig
            · exact hall x hx') hd]
      simp only []
      rw [show parseDigits (c :: ds) = n.natAbs from by
        rw [← hnd, parseDigits_natRepr]]
      have hval : -((n.natAbs : Nat) : Int) = n := by omega
      rw [hval]
    · have h1 : encPrim (JPrim.jint n) = natRepr n.toNat := by
        simp [encPrim, intRepr, if_neg hneg]
      obtain ⟨c, ds, hnd, hcdig⟩ := natRepr_head_digit n.toNat
      have hall : ∀ x ∈ ds, isDigitCh x = true := fun x hx =>
        natRepr_all_digits n.toNat x (by rw [hnd]; exact List.mem_cons_of_mem _ hx)
      have hspec := digit_not_json_special hcdig
      rw [h1, hnd, List.cons_append, parsePrim.eq_def]
      simp only []
      rw [if_neg hspec.1, if_neg hspec.2.1, if_neg hspec.2.2.1,
        if_neg hspec.2.2.2.1, if_neg hspec.2.2.2.2.1, if_pos hcdig]
      rw [show spanP isDigitCh (ds ++ rest) = (ds, rest) from
        spanP_append ds rest hall hd]
      simp only []
      rw [show parseDigits (c :: ds) = n.toNat from by
        rw [← hnd, parseDigits_natRepr]]
      have hval : ((n.toNat : Nat) : Int) = n := by omega
      rw [hval]
  | jbool b =>
    cases b with
    | true =>
      rw [show encPrim (JPrim.jbool true) ++ rest =
        't' :: 'r' :: 'u' :: 'e' :: rest from rfl]
      rw [parsePrim.eq_def]
      simp
    | false =>
      rw [show encPrim (JPrim.jbool false) ++ rest =
        'f' :: 'a' :: 'l' :: 's' :: 'e' :: rest from rfl]
      rw [parsePrim.eq_def]
      simp
  | jnull =>
    rw [show encPrim JPrim.jnull ++ rest =
      'n' :: 'u' :: 'l' :: 'l' :: rest from rfl]
    rw [parsePrim.eq_def]
    simp

theorem encPrim_head (p : JPrim) : ∃ c cs, encPrim p = c :: cs ∧ primStart c := by
  cases p with
  | jstr s => exact ⟨'"', escapeStr s ++ ['"'], rfl, Or.inl rfl⟩
  | jint n =>
    by_cases hneg : n < 0
    · refine ⟨'-', natRepr n.natAbs, ?_, Or.inr (Or.inr (Or.inr (Or.inr (Or.inl rfl))))⟩
      simp [encPrim, intRepr, if_pos hneg]
    · obtain ⟨c, ds, hnd, hcdig⟩ := natRepr_head_digit n.toNat
      refine ⟨c, ds, ?_, Or.inr (Or.inr (Or.inr (Or.inr (Or.inr hcdig))))⟩
      simp [encPrim, intRepr, if_neg hneg, hnd]
  | jbool b =>
    cases b with
    | true => exact ⟨'t', ('r' :: 'u' :: 'e' :: []), rfl, Or.inr (Or.inl rfl)⟩
    | false => exact ⟨'f', ('a' :: 'l' :: 's' :: 'e' :: []), rfl,
        Or.inr (Or.inr (Or.inl rfl))⟩
  | jnull => exact ⟨'n', ('u' :: 'l' :: 'l' :: []), rfl,
      Or.inr (Or.inr (Or.inr (Or.inl rfl)))⟩

theorem encPrim_ne_nil (p : JPrim) : encPrim p ≠ [] := by
  obtain ⟨c, cs, h, _⟩ := encPrim_head p
  rw [h]
  simp

theorem encItemPrim_head (kv : PyStr × JPrim) :
    ∃ cs, encItemPrim kv = '"' :: cs := ⟨_, rfl⟩

theorem encItemPrim_ne_nil (kv : PyStr × JPrim) : encItemPrim kv ≠ [] := by
  obtain ⟨cs, h⟩ := encItemPrim_head kv
  rw [h]
  simp

theorem encItemVal_head (kv : PyStr × JVal) :
    ∃ cs, encItemVal kv = '"' :: cs := ⟨_, rfl⟩

theorem encItemVal_ne_nil (kv : PyStr × JVal) : encItemVal kv ≠ [] := by
  obtain ⟨cs, h⟩ := encItemVal_head kv
  rw [h]
  simp

theorem encVal_head_not_ws (v : JVal) :
    ∃ c cs, encVal v = c :: cs ∧ isWsCh c = false := by
  cases v with
  | prim p =>
    obtain ⟨c, cs, h, hps⟩ := encPrim_head p
    exact ⟨c, cs, h, (primStart_facts hps).1⟩
  | arr elems => exact ⟨'[', _, rfl, by decide⟩
  | obj fields => exact ⟨lbrace, _, rfl, by decide⟩

theorem joinCommaSpace_cons (x : PyStr) (rest : List PyStr) :
    ∃ t, joinCommaSpace (x :: rest) = x ++ t := by
  cases rest with
  | nil => exact ⟨[], by simp [joinCommaSpace]⟩
  | cons y rest' => exact ⟨',' :: ' ' :: joinCommaSpace (y :: rest'), rfl⟩

theorem joinCommaSpace_length_ge :
    ∀ xs : List PyStr, (∀ x ∈ xs, x ≠ []) →
      xs.length ≤ (joinCommaSpace xs).length := by
  intro xs
  induction xs with
  | nil => simp
  | cons x rest ih =>
    intro h
    cases rest with
    | nil =>
      have hx : 1 ≤ x.length := List.length_pos.mpr (h x (by simp))
      simpa [joinCommaSpace] using hx
    | cons y rest' =>
      rw [show joinCommaSpace (x :: y :: rest') =
        x ++ ',' :: ' ' :: joinCommaSpace (y :: rest') from rfl]
      have hx : 1 ≤ x.length := List.length_pos.mpr (h x (by simp))
      have hr := ih (fun z hz => h z (by simp [hz]))
      simp only [List.length_append, List.length_cons]
      simp only [List.length_cons] at hr
      omega

theorem parseArrItems_ws (fuel : Nat) (s : PyStr) :
    parseArrItems (fuel + 1) (' ' :: s) = parseArrItems (fuel + 1) s := by
  conv_lhs => rw [parseArrItems.eq_def]
  conv_rhs => rw [parseArrItems.eq_def]
  dsimp only
  rw [skipWs_cons_space]

theorem parseObjItemsPrim_ws (fuel : Nat) (s : PyStr) :
    parseObjItemsPrim (fuel + 1) (' ' :: s) = parseObjItemsPrim (fuel + 1) s := by
  conv_lhs => rw [parseObjItemsPrim.eq_def]
  conv_rhs => rw [parseObjItemsPrim.eq_def]
  dsimp only
  rw [skipWs_cons_space]

theorem parseTopItems_ws (fuel : Nat) (s : PyStr) :
    parseTopItems (fuel + 1) (' ' :: s) = parseTopItems (fuel + 1) s := by
  conv_lhs => rw [parseTopItems.eq_def]
  conv_rhs => rw [parseTopItems.eq_def]
  dsimp only
  rw [skipWs_cons_space]

theorem head_not_digit_cons {c : Char} (h : isDigitCh c = false) (t : PyStr) :
    ∀ x, (c :: t).head? = some x → isDigitCh x = false := by
  intro x hx
  simp only [List.head?_cons, Option.some.injEq] at hx
  subst hx
  exact h

theorem parseArrItems_enc :
    ∀ (elems : List JPrim) (rest : PyStr) (fuel : Nat), elems ≠ [] →
      elems.length ≤ fuel →
      parseArrItems fuel (joinCommaSpace (elems.map encPrim) ++ ']' :: rest) =
        some (elems, rest) := by
  intro elems
  induction elems with
  | nil => intro rest fuel h _; exact absurd rfl h
  | cons x xs ih =>
    intro rest fuel _ hfuel
    obtain ⟨f, rfl⟩ : ∃ f, fuel = f + 1 :=
      ⟨fuel - 1, by simp at hfuel; omega⟩
    obtain ⟨c, cs, hx, hps⟩ := encPrim_head x
    have hws := (primStart_facts hps).1
    cases xs with
    | nil =>
      rw [show joinCommaSpace ([x].map encPrim) = encPrim x from rfl]
      rw [parseArrItems.eq_def]
      dsimp only
      rw [show skipWs (encPrim x ++ ']' :: rest) = encPrim x ++ ']' :: rest from by
        rw [hx, List.cons_append]; exact skipWs_cons_not_ws hws]
      rw [parsePrim_enc x (']' :: rest) (head_not_digit_cons (by decide) rest)]
      dsimp only
      rw [show skipWs (']' :: rest) = ']' :: rest from skipWs_cons_not_ws (by decide)]
      simp
    | cons y ys =>
      rw [show joinCommaSpace ((x :: y :: ys).map encPrim) =
        encPrim x ++ ',' :: ' ' :: joinCommaSpace ((y :: ys).map encPrim) from rfl]
      rw [parseArrItems.eq_def]
      dsimp only
      rw [List.append_assoc]
      rw [show skipWs (encPrim x ++ (',' :: ' ' ::
          joinCommaSpace ((y :: ys).map encPrim) ++ ']' :: rest)) =
        encPrim x ++ (',' :: ' ' ::
          joinCommaSpace ((y :: ys).map encPrim) ++ ']' :: rest) from by
        rw [hx, List.cons_append]; exact skipWs_cons_not_ws hws]
      rw [parsePrim_enc x (',' :: ' ' ::
        joinCommaSpace ((y :: ys).map encPrim) ++ ']' :: rest)
        (head_not_digit_cons (by decide) _)]
      dsimp only
      rw [show skipWs (',' :: ' ' ::
          joinCommaSpace ((y :: ys).map encPrim) ++ ']' :: rest) = ',' :: ' ' ::
          joinCommaSpace ((y :: ys).map encPrim) ++ ']' :: rest from by
        rw [show (',' :: ' ' :: joinCommaSpace ((y :: ys).map encPrim) ++
          ']' :: rest : PyStr) = ',' :: (' ' :: joinCommaSpace ((y :: ys).map encPrim) ++
          ']' :: rest) from rfl]
        exact skipWs_cons_not_ws (by decide)]
      obtain ⟨f', rfl⟩ : ∃ f', f = f' + 1 :=
        ⟨f - 1, by simp at hfuel; omega⟩
      have harr : parseArrItems (f' + 1)
          (' ' :: (joinCommaSpace ((y :: ys).map encPrim) ++ ']' :: rest)) =
          some (y :: ys, rest) := by
        rw [parseArrItems_ws]
        exact ih rest (f' + 1) (by simp) (by simp at hfuel ⊢; omega)
      simp only [List.map_cons] at harr
      simp [harr]

theorem encItemPrim_shape (k : PyStr) (v : JPrim) (tail : PyStr) :
    encItemPrim (k, v) ++ tail =
      '"' :: (escapeStr k ++ ('"' :: (':' :: (' ' :: (encPrim v ++ tail))))) := by
  simp [encItemPrim, encStr, List.append_assoc]

theorem skipWs_of_head_not_ws {s : PyStr}
    (h : ∃ c cs, s = c :: cs ∧ isWsCh c = false) : skipWs s = s := by
  obtain ⟨c, cs, rfl, hc⟩ := h
  exact skipWs_cons_not_ws hc

theorem parseObjItemsPrim_step (fuel : Nat) (t : PyStr) :
    parseObjItemsPrim (fuel + 1) ('"' :: t) =
      match parseStrAux t with
      | none => none
      | some (key, r2) =>
        match skipWs r2 with
        | d :: r3 =>
          if d = ':' then
            match parsePrim (skipWs r3) with
            | none => none
            | some (v, r4) =>
              match skipWs r4 with
              | e :: r5 =>
                if e = rbrace then some ([(key, v)], r5)
                else if e = ',' then
                  Option.map (fun r => ((key, v) :: r.1, r.2))
                    (parseObjItemsPrim fuel r5)
                else none
              | [] => none
          else none
        | [] => none := by
  rw [parseObjItemsPrim.eq_def]
  dsimp only
  rw [skipWs_cons_not_ws (by decide)]
  rfl

theorem parseObjItemsPrim_enc :
    ∀ (fields : List (PyStr × JPrim)) (rest : PyStr) (fuel : Nat), fields ≠ [] →
      fields.length ≤ fuel →
      parseObjItemsPrim fuel
          (joinCommaSpace (fields.map encItemPrim) ++ rbrace :: rest) =
        some (fields, rest) := by
  intro fields
  induction fields with
  | nil => intro rest fuel h _; exact absurd rfl h
  | cons kv fs ih =>
    intro rest fuel _ hfuel
    obtain ⟨k, v⟩ := kv
    obtain ⟨f, rfl⟩ : ∃ f, fuel = f + 1 :=
      ⟨fuel - 1, by simp at hfuel; omega⟩
    obtain ⟨c, cs, hv, hps⟩ := encPrim_head v
    have hvws := (primStart_facts hps).1
    cases fs with
    | nil =>
      rw [show joinCommaSpace ([(k, v)].map encItemPrim) = encItemPrim (k, v)
        from rfl]
      rw [encItemPrim_shape k v (rbrace :: rest), parseObjItemsPrim_step,
        parseStrAux_escape]
      dsimp only
      rw [skipWs_cons_not_ws (by decide)]
      dsimp only
      rw [if_pos rfl, skipWs_cons_space,
        skipWs_of_head_not_ws ⟨c, cs ++ rbrace :: rest, by rw [hv]; rfl, hvws⟩]
      rw [parsePrim_enc v (rbrace :: rest) (head_not_digit_cons (by decide) rest)]
      dsimp only
      rw [skipWs_cons_not_ws (by decide)]
      simp
    | cons kv2 fs' =>
      rw [show joinCommaSpace (((k, v) :: kv2 :: fs').map encItemPrim) =
        encItemPrim (k, v) ++ ',' :: ' ' ::
          joinCommaSpace ((kv2 :: fs').map encItemPrim) from rfl]
      rw [List.append_assoc]
      rw [encItemPrim_shape k v (',' :: ' ' ::
        joinCommaSpace ((kv2 :: fs').map encItemPrim) ++ rbrace :: rest)]
      rw [parseObjItemsPrim_step, parseStrAux_escape]
      dsimp only
      rw [skipWs_cons_not_ws (by decide)]
      dsimp only
      rw [if_pos rfl, skipWs_cons_space,
        skipWs_of_head_not_ws ⟨c, cs ++ (',' :: ' ' ::
          joinCommaSpace ((kv2 :: fs').map encItemPrim) ++ rbrace :: rest),
          by rw [hv]; rfl, hvws⟩]
      rw [parsePrim_enc v (',' :: ' ' ::
        joinCommaSpace ((kv2 :: fs').map encItemPrim) ++ rbrace :: rest)
        (head_not_digit_cons (by decide) _)]
      dsimp only
      rw [show skipWs (',' :: ' ' ::
          joinCommaSpace ((kv2 :: fs').map encItemPrim) ++ rbrace :: rest) =
        ',' :: ' ' :: joinCommaSpace ((kv2 :: fs').map encItemPrim) ++
          rbrace :: rest from skipWs_cons_not_ws (by decide)]
      obtain ⟨f', rfl⟩ : ∃ f', f = f' + 1 :=
        ⟨f - 1, by simp at hfuel; omega⟩
      have hobj : parseObjItemsPrim (f' + 1)
          (' ' :: (joinCommaSpace ((kv2 :: fs').map encItemPrim) ++
            rbrace :: rest)) = some (kv2 :: fs', rest) := by
        rw [parseObjItemsPrim_ws]
        exact ih rest (f' + 1) (by simp) (by simp at hfuel ⊢; omega)
      simp only [List.map_cons] at hobj
      simp [hobj, show ¬((',' : Char) = rbrace) from by decide]

theorem parseVal_enc (v : JVal) (rest : PyStr)
    (hd : ∀ c, rest.head? = some c → isDigitCh c = false) :
    parseVal (encVal v ++ rest) = some (v, rest) := by
  cases v with
  | prim p =>
    obtain ⟨c, cs, hp, hps⟩ := encPrim_head p
    have hf := primStart_facts hps
    rw [show encVal (JVal.prim p) = encPrim p from rfl, hp, List.cons_append,
      parseVal.eq_def]
    dsimp only
    rw [if_neg hf.2.1, if_neg hf.2.2.1, ← List.cons_append, ← hp,
      parsePrim_enc p rest hd]
    rfl
  | arr elems =>
    cases elems with
    | nil =>
      rw [show encVal (JVal.arr []) ++ rest = '[' :: (']' :: rest) from by
        simp [encVal, encArr, joinCommaSpace]]
      rw [parseVal.eq_def]
      dsimp only
      rw [skipWs_cons_not_ws (by decide)]
      simp
    | cons x xs =>
      rw [show encVal (JVal.arr (x :: xs)) ++ rest =
        '[' :: (joinCommaSpace ((x :: xs).map encPrim) ++ ']' :: rest) from by
          simp [encVal, encArr, List.append_assoc]]
      rw [parseVal.eq_def]
      dsimp only
      obtain ⟨c, cs, hx, hps⟩ := encPrim_head x
      obtain ⟨t, hjoin⟩ := joinCommaSpace_cons (encPrim x) (xs.map encPrim)
      have hshape : joinCommaSpace ((x :: xs).map encPrim) ++ ']' :: rest =
          c :: ((cs ++ t) ++ ']' :: rest) := by
        rw [List.map_cons, hjoin, hx]
        simp [List.append_assoc]
      rw [hshape, skipWs_cons_not_ws (primStart_facts hps).1]
      dsimp only
      rw [if_neg (primStart_facts hps).2.2.2.1, ← hshape]
      have hlen : (x :: xs).length ≤
          (joinCommaSpace ((x :: xs).map encPrim) ++ ']' :: rest).length + 1 := by
        have h1 := joinCommaSpace_length_ge ((x :: xs).map encPrim)
          (fun z hz => by
            rcases List.mem_map.mp hz with ⟨q, _, rfl⟩
            exact encPrim_ne_nil q)
        simp only [List.length_map] at h1
        simp only [List.map_cons, List.length_cons] at h1
        simp [List.length_append]
        omega
      rw [parseArrItems_enc (x :: xs) rest _ (by simp) hlen]
      rfl
  | obj fields =>
    cases fields with
    | nil =>
      rw [show encVal (JVal.obj []) ++ rest = lbrace :: (rbrace :: rest) from by
        simp [encVal, encObj, joinCommaSpace]]
      rw [parseVal.eq_def]
      dsimp only
      rw [if_neg (by decide : ¬(lbrace = '[')),
        skipWs_cons_not_ws (by decide : isWsCh rbrace = false)]
      simp
    | cons kv fs =>
      rw [show encVal (JVal.obj (kv :: fs)) ++ rest =
        lbrace :: (joinCommaSpace ((kv :: fs).map encItemPrim) ++
          rbrace :: rest) from by
          simp [encVal, encObj, List.append_assoc]]
      rw [parseVal.eq_def]
      dsimp only
      rw [if_neg (by decide : ¬(lbrace = '['))]
      obtain ⟨cs, hkv⟩ := encItemPrim_head kv
      obtain ⟨t, hjoin⟩ := joinCommaSpace_cons (encItemPrim kv) (fs.map encItemPrim)
      have hshape : joinCommaSpace ((kv :: fs).map encItemPrim) ++ rbrace :: rest =
          '"' :: ((cs ++ t) ++ rbrace :: rest) := by
        rw [List.map_cons, hjoin, hkv]
        simp [List.append_assoc]
      rw [hshape, skipWs_cons_not_ws (by decide : isWsCh '"' = false)]
      dsimp only
      rw [if_neg (by decide : ¬(('"' : Char) = rbrace)), ← hshape]
      have hlen : (kv :: fs).length ≤
          (joinCommaSpace ((kv :: fs).map encItemPrim) ++ rbrace :: rest).length + 1 := by
        have h1 := joinCommaSpace_length_ge ((kv :: fs).map encItemPrim)
          (fun z hz => by
            rcases List.mem_map.mp hz with ⟨q, _, rfl⟩
            exact encItemPrim_ne_nil q)
        simp only [List.length_map] at h1
        simp only [List.map_cons, List.length_cons] at h1
        simp [List.length_append]
        omega
      rw [parseObjItemsPrim_enc (kv :: fs) rest _ (by simp) hlen]
      rfl

theorem encItemVal_shape (k : PyStr) (v : JVal) (tail : PyStr) :
    encItemVal (k, v) ++ tail =
      '"' :: (escapeStr k ++ ('"' :: (':' :: (' ' :: (encVal v ++ tail))))) := by
  simp [encItemVal, encStr, List.append_assoc]

theorem parseTopItems_step (fuel : Nat) (t : PyStr) :
    parseTopItems (fuel + 1) ('"' :: t) =
      match parseStrAux t with
      | none => none
      | some (key, r2) =>
        match skipWs r2 with
        | d :: r3 =>
          if d = ':' then
            match parseVal (skipWs r3) with
            | none => none
            | some (v, r4) =>
              match skipWs r4 with
              | e :: r5 =>
                if e = rbrace then some ([(key, v)], r5)
                else if e = ',' then
                  Option.map (fun r => ((key, v) :: r.1, r.2))
                    (parseTopItems fuel r5)
                else none
              | [] => none
          else none
        | [] => none := by
  rw [parseTopItems.eq_def]
  dsimp only
  rw [skipWs_cons_not_ws (by decide)]
  rfl

theorem parseTopItems_enc :
    ∀ (m : Message) (rest : PyStr) (fuel : Nat), m ≠ [] →
      m.length ≤ fuel →
      parseTopItems fuel
          (joinCommaSpace (m.map encItemVal) ++ rbrace :: rest) =
        some (m, rest) := by
  intro m
  induction m with
  | nil => intro rest fuel h _; exact absurd rfl h
  | cons kv fs ih =>
    intro rest fuel _ hfuel
    obtain ⟨k, v⟩ := kv
    obtain ⟨f, rfl⟩ : ∃ f, fuel = f + 1 :=
      ⟨fuel - 1, by simp at hfuel; omega⟩
    obtain ⟨c, cs, hv, hvws⟩ := encVal_head_not_ws v
    cases fs with
    | nil =>
      rw [show joinCommaSpace ([(k, v)].map encItemVal) = encItemVal (k, v)
        from rfl]
      rw [encItemVal_shape k v (rbrace :: rest), parseTopItems_step,
        parseStrAux_escape]
      dsimp only
      rw [skipWs_cons_not_ws (by decide)]
      dsimp only
      rw [if_pos rfl, skipWs_cons_space,
        skipWs_of_head_not_ws ⟨c, cs ++ rbrace :: rest, by rw [hv]; rfl, hvws⟩]
      rw [parseVal_enc v (rbrace :: rest) (head_not_digit_cons (by decide) rest)]
      dsimp only
      rw [skipWs_cons_not_ws (by decide)]
      simp
    | cons kv2 fs' =>
      rw [show joinCommaSpace (((k, v) :: kv2 :: fs').map encItemVal) =
        encItemVal (k, v) ++ ',' :: ' ' ::
          joinCommaSpace ((kv2 :: fs').map encItemVal) from rfl]
      rw [List.append_assoc]
      rw [encItemVal_shape k v (',' :: ' ' ::
        joinCommaSpace ((kv2 :: fs').map encItemVal) ++ rbrace :: rest)]
      rw [parseTopItems_step, parseStrAux_escape]
      dsimp only
      rw [skipWs_cons_not_ws (by decide)]
      dsimp only
      rw [if_pos rfl, skipWs_cons_space,
        skipWs_of_head_not_ws ⟨c, cs ++ (',' :: ' ' ::
          joinCommaSpace ((kv2 :: fs').map encItemVal) ++ rbrace :: rest),
          by rw [hv]; rfl, hvws⟩]
      rw [parseVal_enc v (',' :: ' ' ::
        joinCommaSpace ((kv2 :: fs').map encItemVal) ++ rbrace :: rest)
        (head_not_digit_cons (by decide) _)]
      dsimp only
      rw [show skipWs (',' :: ' ' ::
          joinCommaSpace ((kv2 :: fs').map encItemVal) ++ rbrace :: rest) =
        ',' :: ' ' :: joinCommaSpace ((kv2 :: fs').map encItemVal) ++
          rbrace :: rest from skipWs_cons_not_ws (by decide)]
      obtain ⟨f', rfl⟩ : ∃ f', f = f' + 1 :=
        ⟨f - 1, by simp at hfuel; omega⟩
      have htop : parseTopItems (f' + 1)
          (' ' :: (joinCommaSpace ((kv2 :: fs').map encItemVal) ++
            rbrace :: rest)) = some (kv2 :: fs', rest) := by
        rw [parseTopItems_ws]
        exact ih rest (f' + 1) (by simp) (by simp at hfuel ⊢; omega)
      simp only [List.map_cons] at htop
      simp [htop, show ¬((',' : Char) = rbrace) from by decide]

/-- A mapping value has no duplicate keys (a Python dict cannot). -/
def objKeysNodup : JVal → Prop
  | JVal.obj fields => (fields.map Prod.fst).Nodup
  | _ => True

instance (v : JVal) : Decidable (objKeysNodup v) := by
  cases v with
  | prim p => exact isTrue trivial
  | arr es => exact isTrue trivial
  | obj fields => exact (inferInstance : Decidable ((fields.map Prod.fst).Nodup))

/-- Messages that denote Python dict values: unique keys at the top
level and in every nested mapping. -/
abbrev WF (m : Message) : Prop :=
  (m.map Prod.fst).Nodup ∧ ∀ kv ∈ m, objKeysNodup kv.2

/-- C8: for every message value that is a flat string-keyed mapping of
primitives, sequences of primitives, and mappings of primitives,
`decode_message (encode_message m) = m`. -/
theorem C8_message_codec_roundtrip (m : Message) (hwf : WF m) :
    decode_message (encode_message m) = some m := by
  rw [decode_message.eq_def]
  rw [show encode_message m =
    lbrace :: (joinCommaSpace (m.map encItemVal) ++ [rbrace]) from rfl]
  rw [skipWs_cons_not_ws (by decide : isWsCh lbrace = false)]
  dsimp only
  rw [if_pos rfl]
  cases m with
  | nil =>
    rw [show joinCommaSpace (([] : Message).map encItemVal) ++ [rbrace] =
      rbrace :: [] from rfl]
    rw [skipWs_cons_not_ws (by decide : isWsCh rbrace = false)]
    simp [skipWs]
  | cons kv fs =>
    obtain ⟨cs, hkv⟩ := encItemVal_head kv
    obtain ⟨t, hjoin⟩ := joinCommaSpace_cons (encItemVal kv) (fs.map encItemVal)
    have hshape : joinCommaSpace ((kv :: fs).map encItemVal) ++ [rbrace] =
        '"' :: ((cs ++ t) ++ [rbrace]) := by
      rw [List.map_cons, hjoin, hkv]
      simp [List.append_assoc]
    rw [hshape, skipWs_cons_not_ws (by decide : isWsCh '"' = false)]
    dsimp only
    rw [if_neg (by decide : ¬(('"' : Char) = rbrace)), ← hshape]
    have hlen : (kv :: fs).length ≤
        (lbrace :: (joinCommaSpace ((kv :: fs).map encItemVal) ++ [rbrace])).length + 1 := by
      have h1 := joinCommaSpace_length_ge ((kv :: fs).map encItemVal)
        (fun z hz => by
          rcases List.mem_map.mp hz with ⟨q, _, rfl⟩
          exact encItemVal_ne_nil q)
      simp only [List.length_map] at h1
      simp only [List.map_cons, List.length_cons] at h1
      simp [List.length_append]
      omega
    rw [show joinCommaSpace ((kv :: fs).map encItemVal) ++ [rbrace] =
      joinCommaSpace ((kv :: fs).map encItemVal) ++ rbrace :: [] from rfl]
    rw [parseTopItems_enc (kv :: fs) [] _ (by simp) hlen]
    simp [skipWs]

/-- A representative wire message for the witness: a status_message
with a nested data mapping and a mixed primitive sequence. -/
def c8_example : Message :=
  [(("type").toList, JVal.prim (JPrim.jstr (("status_message").toList))),
   (("status").toList, JVal.prim (JPrim.jstr (("connected").toList))),
   (("level").toList, JVal.prim (JPrim.jint 20)),
   (("offset").toList, JVal.prim (JPrim.jint (-3))),
   (("ok").toList, JVal.prim (JPrim.jbool true)),
   (("details").toList, JVal.prim JPrim.jnull),
   (("data").toList, JVal.obj
     [(("reason").toList, JPrim.jstr (("user_requested").toList)),
      (("was_error").toList, JPrim.jstr (("false").toList))]),
   (("nums").toList, JVal.arr [JPrim.jint 1, JPrim.jint (-2), JPrim.jnull])]

/-- Witness for C8 on the representative message. -/
theorem C8_message_codec_roundtrip_witness :
    decode_message (encode_message c8_example) = some c8_example :=
  C8_message_codec_roundtrip c8_example (by decide)

end MoshiConnect
